import Mathlib

/-!
Shallow embedding of the chunked image-diff core of match_pdf
(src/images.rs and the Rectangle / Config logic of src/main.rs).

Images are RGBA bitmaps; a pixel read or write that the `image` crate
would panic on (out of bounds) is modelled as `Option`.  Rectangle
coordinates are `f64` in the source; they are modelled as `Rat`, with the
Rust `as u32` saturating cast and `f64::round` made explicit.
-/

namespace MatchPdf

/-- One RGBA pixel; channels are u8 values in the source. -/
structure Rgba where
  r : Nat
  g : Nat
  b : Nat
  a : Nat
deriving DecidableEq, Repr

/-- An RGBA bitmap: `ImageBuffer<Rgba<u8>, Vec<u8>>`.  The pixel grid is
modelled as a total function; reads and writes outside `width × height`
go through the fallible accessors below. -/
structure Image where
  width : Nat
  height : Nat
  pix : Nat → Nat → Rgba

/-- `ImageBuffer::get_pixel`: panics (here: `none`) out of bounds. -/
def getPixel (img : Image) (x y : Nat) : Option Rgba :=
  if x < img.width ∧ y < img.height then some (img.pix x y) else none

/-- In-place pixel store (the effect of a `get_pixel_mut` assignment). -/
def setPix (img : Image) (x y : Nat) (p : Rgba) : Image :=
  { img with pix := fun u v => if u = x ∧ v = y then p else img.pix u v }

/-- `ImageBuffer::put_pixel`, which panics (here: `none`) out of bounds. -/
def putPixelChecked (img : Image) (x y : Nat) (p : Rgba) : Option Image :=
  if x < img.width ∧ y < img.height then some (setPix img x y p) else none

/-- Rust `as u32` applied to an `f64`: truncation toward zero with
saturation into `[0, 2^32 - 1]` (the only casts the source performs are
on finite values; `Rat` stands in for `f64`). -/
def f64AsU32 (q : Rat) : Nat :=
  if q.num < 0 then 0 else min (Rat.floor q).toNat 4294967295

/-- `f64::round`: round half away from zero.  For q = n/d with d > 0 this
is floor(q + 1/2) when q is nonnegative and -floor(-q + 1/2) otherwise,
computed here directly on the numerator and denominator so that it
reduces in the kernel: floor((2n + d) / (2d)) is the floor division
(2n + d).fdiv (2d). -/
def rustRound (q : Rat) : Int :=
  if 0 ≤ q.num then (2 * q.num + (q.den : Int)).fdiv (2 * (q.den : Int))
  else -(((q.den : Int) - 2 * q.num).fdiv (2 * (q.den : Int)))

/-- `f64::round(..) as i32`: rounding followed by the saturating cast. -/
def roundToI32 (q : Rat) : Int :=
  max (-2147483648) (min (rustRound q) 2147483647)

/-- The `Rectangle` struct of src/main.rs. -/
structure Rectangle where
  page : String
  top_left : Rat × Rat
  bottom_right : Rat × Rat
deriving DecidableEq

/-- `Rectangle::overlaps` (src/main.rs lines 84-94). -/
def Rectangle.overlaps (rect : Rectangle) (x y chunk_size : Nat) : Bool :=
  let chunk_bottom_right_x := x + chunk_size
  let chunk_bottom_right_y := y + chunk_size
  let condition1 := f64AsU32 rect.bottom_right.1 < x
  let condition2 := f64AsU32 rect.top_left.1 > chunk_bottom_right_x
  let condition3 := f64AsU32 rect.bottom_right.2 < y
  let condition4 := f64AsU32 rect.top_left.2 > chunk_bottom_right_y
  !(condition1 || condition2 || condition3 || condition4)

/-- `Rectangle::contains` (src/main.rs lines 97-102). -/
def Rectangle.contains (rect : Rectangle) (x y : Nat) : Bool :=
  decide (f64AsU32 rect.top_left.1 ≤ x) &&
  decide (x ≤ f64AsU32 rect.bottom_right.1) &&
  decide (f64AsU32 rect.top_left.2 ≤ y) &&
  decide (y ≤ f64AsU32 rect.bottom_right.2)

/-- Status loop of compare_images_in_chunks (src/images.rs lines 41-52):
walks the rectangles carrying the partial-overlap flag, and stops at the
first rectangle containing both tile corners. Returns
(is_chunk_ignored, partial flag). -/
def chunkStatusGo (x y : Nat) : List Rectangle → Bool → Bool × Bool
  | [], p => (false, p)
  | rect :: rs, p =>
    if rect.overlaps x y 10 then
      if rect.contains x y && rect.contains (x + 10) (y + 10) then (true, p)
      else chunkStatusGo x y rs true
    else chunkStatusGo x y rs p

/-- Chunk status relative to the (optional) ignore rectangles. -/
def chunkStatus (rectsOpt : Option (List Rectangle)) (x y : Nat) : Bool × Bool :=
  chunkStatusGo x y (rectsOpt.getD []) false

/-- Per-pixel skip test for partially overlapped chunks
(src/images.rs lines 74-80). -/
def pixelSkip (rectsOpt : Option (List Rectangle)) (partFlag : Bool) (ax ay : Nat) : Bool :=
  partFlag &&
    (match rectsOpt with
     | some rects => rects.any (fun rect => rect.contains ax ay)
     | none => false)

/-- Scan order of pixel offsets inside one chunk: `dy` outer, `dx` inner
(src/images.rs lines 62-63). -/
def tileOffsets : List (Nat × Nat) :=
  (List.range 10).flatMap (fun dy => (List.range 10).map (fun dx => (dy, dx)))

/-- Pixel loop of one chunk with the short-circuit on the first differing
pixel (src/images.rs lines 62-96).  Bounds are checked against img1's
dimensions only, exactly as in the source, so the img2 read can fail. -/
def scanChunk (img1 img2 : Image) (rectsOpt : Option (List Rectangle))
    (partFlag : Bool) (x y : Nat) : List (Nat × Nat) → Option Bool
  | [] => some false
  | (dy, dx) :: rest =>
    let actual_x := x + dx
    let actual_y := y + dy
    if actual_x ≥ img1.width ∨ actual_y ≥ img1.height then
      scanChunk img1 img2 rectsOpt partFlag x y rest
    else if pixelSkip rectsOpt partFlag actual_x actual_y then
      scanChunk img1 img2 rectsOpt partFlag x y rest
    else
      match getPixel img1 actual_x actual_y, getPixel img2 actual_x actual_y with
      | some p1, some p2 =>
        if p1 ≠ p2 then some true
        else scanChunk img1 img2 rectsOpt partFlag x y rest
      | _, _ => none

/-- Chunk loop body of compare_images_in_chunks over an explicit list of
chunk origins in scan order. -/
def compareGo (img1 img2 : Image) (rectsOpt : Option (List Rectangle)) :
    List (Nat × Nat) → Option (List (Nat × Nat))
  | [] => some []
  | (x, y) :: rest =>
    let st := chunkStatus rectsOpt x y
    if st.1 then compareGo img1 img2 rectsOpt rest
    else
      match scanChunk img1 img2 rectsOpt st.2 x y tileOffsets with
      | none => none
      | some d =>
        match compareGo img1 img2 rectsOpt rest with
        | none => none
        | some tail => some (if d then (x, y) :: tail else tail)

/-- The values taken by `(0..n).step_by(10)`. -/
def chunkStarts (n : Nat) : List Nat :=
  (List.range ((n + 9) / 10)).map (fun i => i * 10)

/-- All chunk origins in scan order (rows top-to-bottom, columns
left-to-right), per the nesting of the source loops. -/
def chunkCoords (w h : Nat) : List (Nat × Nat) :=
  (chunkStarts h).flatMap (fun y => (chunkStarts w).map (fun x => (x, y)))

/-- `compare_images_in_chunks` (src/images.rs lines 22-106).  The grid is
derived from img1's dimensions; a panic of the underlying pixel access is
`none`. -/
def compare_images_in_chunks (img1 img2 : Image)
    (ignore_rects : Option (List Rectangle)) : Option (List (Nat × Nat)) :=
  compareGo img1 img2 ignore_rects (chunkCoords img1.width img1.height)

/-- The recoloring applied to one visited pixel by highlight_chunks
(src/images.rs lines 126-146): the if-chain tests the channel values the
pixel holds when it is visited, and the alpha channel is not written. -/
def recolorPixel (p : Rgba) : Rgba :=
  if p.r < 150 ∧ p.g < 150 ∧ p.b < 150 then ⟨249, 133, 139, p.a⟩
  else if p.r > 215 ∧ p.g < 215 ∧ p.b < 215 then ⟨118, 17, 55, p.a⟩
  else ⟨237, 51, 95, p.a⟩

/-- One iteration of the inner loops of highlight_chunks: bounds guard,
then in-place recolor (src/images.rs lines 116-147). -/
def highlightPixelStep (img : Image) (x y : Nat) : Image :=
  if x < img.width ∧ y < img.height then
    setPix img x y (recolorPixel (img.pix x y))
  else img

/-- Offset order of highlight_chunks: `dx` outer, `dy` inner
(src/images.rs lines 116-117). -/
def highlightOffsets : List (Nat × Nat) :=
  (List.range 10).flatMap (fun dx => (List.range 10).map (fun dy => (dx, dy)))

/-- Processing of one listed chunk by highlight_chunks. -/
def highlightChunk (img : Image) (c : Nat × Nat) : Image :=
  highlightOffsets.foldl
    (fun im od => highlightPixelStep im (c.1 + od.1) (c.2 + od.2)) img

/-- `highlight_chunks` (src/images.rs lines 111-153): clones the input
and recolors the listed chunks in order. -/
def highlight_chunks (image : Image) (chunks : List (Nat × Nat)) : Image :=
  chunks.foldl highlightChunk image

/-- `set_ignored_pixel_border_color` (src/images.rs lines 201-220): guard
on both coordinates, then write red or black by (x+y) parity into the
RGB channels, leaving alpha as it was. -/
def set_ignored_pixel_border_color (image : Image) (x y : Int) : Image :=
  if 0 ≤ x ∧ x < (image.width : Int) ∧ 0 ≤ y ∧ y < (image.height : Int) then
    if (x + y) % 2 = 0 then
      setPix image x.toNat y.toNat ⟨255, 0, 0, (image.pix x.toNat y.toNat).a⟩
    else
      setPix image x.toNat y.toNat ⟨0, 0, 0, (image.pix x.toNat y.toNat).a⟩
  else image

/-- The integer values visited by a Rust `a..b` loop over i32. -/
def intRange (a b : Int) : List Int :=
  (List.range (b - a).toNat).map (fun (i : Nat) => a + (i : Int))

/-- Border drawing for one rectangle (the body of the rectangle loop of
draw_ignored_rectangles, src/images.rs lines 163-192): horizontal pass
over `round(tlx)..round(brx)` writing the top and bottom rows, then
vertical pass over `round(tly)+1..round(bry)` writing the left and right
columns. -/
def drawRect (image : Image) (rect : Rectangle) : Image :=
  let tlx := roundToI32 rect.top_left.1
  let tly := roundToI32 rect.top_left.2
  let brx := roundToI32 rect.bottom_right.1
  let bry := roundToI32 rect.bottom_right.2
  let afterH := (intRange tlx brx).foldl
    (fun im x =>
      if 0 ≤ x ∧ x < (im.width : Int) then
        set_ignored_pixel_border_color (set_ignored_pixel_border_color im x tly) x bry
      else im) image
  (intRange (tly + 1) bry).foldl
    (fun im y =>
      if 0 ≤ y ∧ y < (im.height : Int) then
        set_ignored_pixel_border_color (set_ignored_pixel_border_color im tlx y) brx y
      else im) afterH

/-- `draw_ignored_rectangles` (src/images.rs lines 157-197). -/
def draw_ignored_rectangles (image : Image)
    (ignore_rects : Option (List Rectangle)) : Image :=
  match ignore_rects with
  | some rectangles => rectangles.foldl drawRect image
  | none => image

/-- `image::imageops::replace`: copies `src` onto `dest` with its top-left
corner at (ox, oy), clipped to the destination bounds (semantics of the
external image crate collaborator). -/
def replaceImg (dest src : Image) (ox oy : Int) : Image :=
  { dest with pix := fun x y =>
      if ox ≤ (x : Int) ∧ (x : Int) - ox < (src.width : Int) ∧
         oy ≤ (y : Int) ∧ (y : Int) - oy < (src.height : Int) ∧
         x < dest.width ∧ y < dest.height then
        src.pix ((x : Int) - ox).toNat ((y : Int) - oy).toNat
      else dest.pix x y }

/-- Composite assembly of src/main.rs lines 716-729: fresh transparent
image of size (w1 + w2 + 1) × h1, copy of the first image at the origin,
a column of opaque black at x = w1 written with the fallible put_pixel,
then a copy of the second image at x = w1 + 1. -/
def compose (imageA imageB : Image) : Option Image :=
  let total_width := imageA.width + imageB.width + 1
  let total_height := imageA.height
  let base : Image := ⟨total_width, total_height, fun _ _ => ⟨0, 0, 0, 0⟩⟩
  let withA := replaceImg base imageA 0 0
  match (List.range total_height).foldlM
      (fun im y => putPixelChecked im imageA.width y ⟨0, 0, 0, 255⟩) withA with
  | none => none
  | some withLine => some (replaceImg withLine imageB ((imageA.width : Int) + 1) 0)

/-- Rust `str::parse::<i32>`: optional sign, one or more ASCII digits,
failure on anything else or on overflow of the i32 range. -/
def parseDigits : List Char → Option Nat
  | [] => none
  | cs => cs.foldl
      (fun acc c =>
        match acc with
        | none => none
        | some n => if c.isDigit then some (n * 10 + (c.toNat - 48)) else none)
      (some 0)

def parseI32 (s : String) : Option Int :=
  match s.data with
  | '+' :: rest =>
    match parseDigits rest with
    | some n => if n ≤ 2147483647 then some (n : Int) else none
    | none => none
  | '-' :: rest =>
    match parseDigits rest with
    | some n => if n ≤ 2147483648 then some (-(n : Int)) else none
    | none => none
  | l =>
    match parseDigits l with
    | some n => if n ≤ 2147483647 then some (n : Int) else none
    | none => none

/-- The `Config` struct of src/main.rs. -/
structure Config where
  ignored_rectangles : List Rectangle

/-- The page-selector match of the collection loop of
get_matching_rectangles (src/main.rs lines 120-143).  The Rust `match`
on the selector string tests the literal arms "all", "even", "odd" in
order, falling through to a literal comparison with the page string;
`%` on i32 is the truncated remainder Int.tmod. -/
def pageSelectorMatches (page : String) (rect : Rectangle) : Bool :=
  if rect.page = "all" then true
  else if rect.page = "even" then
    match parseI32 page with
    | some page_num => decide (Int.tmod page_num 2 = 0)
    | none => false
  else if rect.page = "odd" then
    match parseI32 page with
    | some page_num => decide (Int.tmod page_num 2 = 1)
    | none => false
  else decide (page = rect.page)

/-- The per-corner inches-to-pixels conversion of get_matching_rectangles
(src/main.rs lines 145-173): value * 72 * (2000 / height), rounded. -/
def convertCorner (height_in_points : Int) (v : Rat) : Rat :=
  let pixels_per_point : Rat := 2000 / (height_in_points : Rat)
  ((rustRound (v * 72 * pixels_per_point) : Int) : Rat)

/-- `Config::get_matching_rectangles` (src/main.rs lines 117-177):
collect the rectangles whose selector matches the page, then convert
both corners of each from inches to pixels. -/
def Config.get_matching_rectangles (config : Config) (page : String)
    (height_in_points : Int) : List Rectangle :=
  let matching_rects :=
    config.ignored_rectangles.filter (pageSelectorMatches page)
  matching_rects.map (fun rect =>
    { rect with
      top_left := (convertCorner height_in_points rect.top_left.1,
                   convertCorner height_in_points rect.top_left.2),
      bottom_right := (convertCorner height_in_points rect.bottom_right.1,
                       convertCorner height_in_points rect.bottom_right.2) })

/-- Modelled from the spec (section 4.1 resolveForPage), for the
refinement claim about get_matching_rectangles: filter by the selector
semantics the spec states, then convert both corners by
pixel = round(inches * 72 * (2000 / pageHeightPoints)). -/
def resolveForPage (allRectangles : List Rectangle) (pageNumber : String)
    (pageHeightPoints : Int) : List Rectangle :=
  let specMatches : Rectangle → Bool := fun rect =>
    if rect.page = "all" then true
    else if rect.page = "even" then
      match parseI32 pageNumber with
      | some n => decide (Int.tmod n 2 = 0)
      | none => false
    else if rect.page = "odd" then
      match parseI32 pageNumber with
      | some n => decide (Int.tmod n 2 = 1)
      | none => false
    else decide (pageNumber = rect.page)
  let convert : Rat → Rat := fun inches =>
    ((rustRound (inches * 72 * (2000 / (pageHeightPoints : Rat))) : Int) : Rat)
  (allRectangles.filter specMatches).map (fun rect =>
    { rect with
      top_left := (convert rect.top_left.1, convert rect.top_left.2),
      bottom_right := (convert rect.bottom_right.1, convert rect.bottom_right.2) })

/-!
Checked variants: the same control flow as highlight_chunks and
draw_ignored_rectangles, but with every underlying pixel access routed
through the fallible accessors (`none` where the image crate would
panic).  They witness that the source's defensive guards keep every
access in bounds.
-/

def highlightPixelStepChecked (img : Image) (x y : Nat) : Option Image :=
  if x < img.width ∧ y < img.height then
    match getPixel img x y with
    | some p => putPixelChecked img x y (recolorPixel p)
    | none => none
  else some img

def highlightChunkChecked (img : Image) (c : Nat × Nat) : Option Image :=
  highlightOffsets.foldlM
    (fun im od => highlightPixelStepChecked im (c.1 + od.1) (c.2 + od.2)) img

def highlightChecked (image : Image) (chunks : List (Nat × Nat)) : Option Image :=
  chunks.foldlM highlightChunkChecked image

def setIgnoredChecked (image : Image) (x y : Int) : Option Image :=
  if 0 ≤ x ∧ x < (image.width : Int) ∧ 0 ≤ y ∧ y < (image.height : Int) then
    match getPixel image x.toNat y.toNat with
    | some p =>
      if (x + y) % 2 = 0 then
        putPixelChecked image x.toNat y.toNat ⟨255, 0, 0, p.a⟩
      else
        putPixelChecked image x.toNat y.toNat ⟨0, 0, 0, p.a⟩
    | none => none
  else some image

def drawRectChecked (image : Image) (rect : Rectangle) : Option Image :=
  ((intRange (roundToI32 rect.top_left.1) (roundToI32 rect.bottom_right.1)).foldlM
      (fun im x =>
        if 0 ≤ x ∧ x < (im.width : Int) then
          (setIgnoredChecked im x (roundToI32 rect.top_left.2)).bind
            (fun im1 => setIgnoredChecked im1 x (roundToI32 rect.bottom_right.2))
        else some im) image).bind
    (fun afterH =>
      (intRange (roundToI32 rect.top_left.2 + 1)
          (roundToI32 rect.bottom_right.2)).foldlM
        (fun im y =>
          if 0 ≤ y ∧ y < (im.height : Int) then
            (setIgnoredChecked im (roundToI32 rect.top_left.1) y).bind
              (fun im1 =>
                setIgnoredChecked im1 (roundToI32 rect.bottom_right.1) y)
          else some im) afterH)

def drawChecked (image : Image) (ignore_rects : Option (List Rectangle)) :
    Option Image :=
  match ignore_rects with
  | some rectangles => rectangles.foldlM drawRectChecked image
  | none => some image

/-!
Concrete inputs for the spec's scenarios and for witnesses.
-/

/-- A 20×20 uniformly dark page. -/
def imgA20 : Image := ⟨20, 20, fun _ _ => ⟨0, 0, 0, 255⟩⟩

/-- The same page except pixel (5,5) differs. -/
def imgB20 : Image :=
  ⟨20, 20, fun x y => if x = 5 ∧ y = 5 then ⟨1, 0, 0, 255⟩ else ⟨0, 0, 0, 255⟩⟩

/-- An all-page ignore rectangle with resolved pixel bounds (0,0)-(9,9). -/
def rect09 : Rectangle := ⟨"all", ((0 : Rat), (0 : Rat)), ((9 : Rat), (9 : Rat))⟩

/-- An all-page ignore rectangle with resolved pixel bounds (0,0)-(10,10):
it fully contains the first chunk including the tile corner (10,10). -/
def rect010 : Rectangle := ⟨"all", ((0 : Rat), (0 : Rat)), ((10 : Rat), (10 : Rat))⟩

/-- A rectangle whose page selector is "even". -/
def rectEven : Rectangle := ⟨"even", ((1 : Rat), (1 : Rat)), ((2 : Rat), (2 : Rat))⟩

/-- A 1×1 image holding one dark pixel. -/
def oneDark : Image := ⟨1, 1, fun _ _ => ⟨0, 0, 0, 255⟩⟩

/-- A 5×5 image of pixels (7,7,7) with a non-opaque alpha of 9. -/
def img5x5 : Image := ⟨5, 5, fun _ _ => ⟨7, 7, 7, 9⟩⟩

/-- A rectangle whose rounded pixel corners are (0,0) and (2,2). -/
def rectC8 : Rectangle := ⟨"all", ((0 : Rat), (0 : Rat)), ((2 : Rat), (2 : Rat))⟩

/-- A 1×1 image with a single white pixel. -/
def oneWhite : Image := ⟨1, 1, fun _ _ => ⟨255, 255, 255, 255⟩⟩

/-- A 2×2 image whose pixels encode their coordinates. -/
def imgC10 : Image := ⟨2, 2, fun x y => ⟨x, y, 0, 255⟩⟩

/-- A 1×1 sub-view-sized image used as the smaller compare operand. -/
def oneRed : Image := ⟨1, 1, fun _ _ => ⟨200, 0, 0, 255⟩⟩

/-!
Derived predicates used to characterise compare_images_in_chunks.
-/

/-- A chunk is fully ignored when some rectangle contains both the corner
(x, y) and the corner (x+10, y+10) used by the source. -/
def chunkFullyIgnored (rectsOpt : Option (List Rectangle)) (x y : Nat) : Bool :=
  (rectsOpt.getD []).any
    (fun r => r.contains x y && r.contains (x + 10) (y + 10))

/-- The partial-overlap flag a chunk ends up with when it is not fully
ignored. -/
def chunkPartFlag (rectsOpt : Option (List Rectangle)) (x y : Nat) : Bool :=
  (rectsOpt.getD []).any (fun r => r.overlaps x y 10)

/-- Whether compare_images_in_chunks reports the chunk at origin `c`. -/
def chunkFlag (img1 img2 : Image) (rectsOpt : Option (List Rectangle))
    (c : Nat × Nat) : Bool :=
  !chunkFullyIgnored rectsOpt c.1 c.2 &&
  tileOffsets.any (fun od =>
    decide (c.1 + od.2 < img1.width ∧ c.2 + od.1 < img1.height) &&
    !pixelSkip rectsOpt (chunkPartFlag rectsOpt c.1 c.2) (c.1 + od.2) (c.2 + od.1) &&
    decide (img1.pix (c.1 + od.2) (c.2 + od.1) ≠ img2.pix (c.1 + od.2) (c.2 + od.1)))

/-- Membership of (x, y) in the 10×10 tile with origin c. -/
def inTile (c : Nat × Nat) (x y : Nat) : Prop :=
  c.1 ≤ x ∧ x < c.1 + 10 ∧ c.2 ≤ y ∧ y < c.2 + 10

instance (c : Nat × Nat) (x y : Nat) : Decidable (inTile c x y) := by
  unfold inTile; infer_instance

/-- The 10×10 tiles at origins c and c' share no pixel. -/
def tilesApart (c c' : Nat × Nat) : Prop :=
  c.1 + 10 ≤ c'.1 ∨ c'.1 + 10 ≤ c.1 ∨ c.2 + 10 ≤ c'.2 ∨ c'.2 + 10 ≤ c.2

instance (c c' : Nat × Nat) : Decidable (tilesApart c c') := by
  unfold tilesApart; infer_instance

/-- The color written by set_ignored_pixel_border_color at (x, y): red or
black by parity of x + y, keeping the alpha of the overwritten pixel. -/
def paint (x y : Int) (p : Rgba) : Rgba :=
  if (x + y) % 2 = 0 then ⟨255, 0, 0, p.a⟩ else ⟨0, 0, 0, p.a⟩

/-- The set of integer coordinates the border passes of drawRect write
for a rectangle: top and bottom rows over x in [round(tlx), round(brx)),
and left and right columns over y in [round(tly)+1, round(bry)). -/
def inBorder (rect : Rectangle) (x y : Int) : Prop :=
  (roundToI32 rect.top_left.1 ≤ x ∧ x < roundToI32 rect.bottom_right.1 ∧
    (y = roundToI32 rect.top_left.2 ∨ y = roundToI32 rect.bottom_right.2)) ∨
  (roundToI32 rect.top_left.2 + 1 ≤ y ∧ y < roundToI32 rect.bottom_right.2 ∧
    (x = roundToI32 rect.top_left.1 ∨ x = roundToI32 rect.bottom_right.1))

instance (rect : Rectangle) (x y : Int) : Decidable (inBorder rect x y) := by
  unfold inBorder; infer_instance

/-!
Lemmas about the chunk-status loop.
-/

theorem contains_both_overlaps (r : Rectangle) (x y : Nat)
    (h : r.contains x y = true) : r.overlaps x y 10 = true := by
  simp only [Rectangle.contains, Bool.and_eq_true, decide_eq_true_eq] at h
  simp only [Rectangle.overlaps, Bool.not_eq_true', Bool.or_eq_false_iff,
    decide_eq_false_iff_not, not_lt, gt_iff_lt]
  omega

theorem chunkStatusGo_fst (x y : Nat) :
    ∀ (rs : List Rectangle) (p : Bool),
      (chunkStatusGo x y rs p).1 =
        rs.any (fun r => r.contains x y && r.contains (x + 10) (y + 10)) := by
  intro rs
  induction rs with
  | nil => intro p; simp [chunkStatusGo]
  | cons r rs ih =>
    intro p
    simp only [chunkStatusGo, List.any_cons]
    by_cases hov : r.overlaps x y 10 = true
    · simp only [hov, if_true]
      by_cases hcb : (r.contains x y && r.contains (x + 10) (y + 10)) = true
      · simp [hcb]
      · simp only [Bool.not_eq_true] at hcb
        simp [hcb, ih]
    · simp only [Bool.not_eq_true] at hov
      have hcb : (r.contains x y && r.contains (x + 10) (y + 10)) = false := by
        by_contra hne
        simp only [Bool.not_eq_false, Bool.and_eq_true] at hne
        have := contains_both_overlaps r x y hne.1
        rw [this] at hov; cases hov
      simp [hov, hcb, ih]

theorem chunkStatusGo_snd (x y : Nat) :
    ∀ (rs : List Rectangle) (p : Bool),
      (chunkStatusGo x y rs p).1 = false →
      (chunkStatusGo x y rs p).2 = (p || rs.any (fun r => r.overlaps x y 10)) := by
  intro rs
  induction rs with
  | nil => intro p _; simp [chunkStatusGo]
  | cons r rs ih =>
    intro p hfst
    simp only [chunkStatusGo, List.any_cons] at hfst ⊢
    by_cases hov : r.overlaps x y 10 = true
    · simp only [hov, if_true, Bool.true_or] at hfst ⊢
      by_cases hcb : (r.contains x y && r.contains (x + 10) (y + 10)) = true
      · simp [hcb] at hfst
      · simp only [Bool.not_eq_true] at hcb
        simp only [hcb, if_neg, Bool.false_eq_true, not_false_iff] at hfst ⊢
        rw [ih true hfst]
        simp
    · simp only [Bool.not_eq_true] at hov
      simp only [hov, Bool.false_eq_true, if_false, Bool.false_or] at hfst ⊢
      exact ih p hfst

theorem scanChunk_eq (img1 img2 : Image) (rectsOpt : Option (List Rectangle))
    (partFlag : Bool) (x y : Nat)
    (hw : img1.width ≤ img2.width) (hh : img1.height ≤ img2.height) :
    ∀ offs : List (Nat × Nat),
      scanChunk img1 img2 rectsOpt partFlag x y offs =
        some (offs.any (fun od =>
          decide (x + od.2 < img1.width ∧ y + od.1 < img1.height) &&
          !pixelSkip rectsOpt partFlag (x + od.2) (y + od.1) &&
          decide (img1.pix (x + od.2) (y + od.1) ≠ img2.pix (x + od.2) (y + od.1)))) := by
  intro offs
  induction offs with
  | nil => simp [scanChunk]
  | cons od rest ih =>
    obtain ⟨dy, dx⟩ := od
    simp only [scanChunk, List.any_cons]
    by_cases hb : x + dx ≥ img1.width ∨ y + dy ≥ img1.height
    · have hdec : decide (x + dx < img1.width ∧ y + dy < img1.height) = false := by
        simp only [decide_eq_false_iff_not]; omega
      simp [hb, hdec, ih]
    · have hxw : x + dx < img1.width := by omega
      have hyh : y + dy < img1.height := by omega
      have hdec : decide (x + dx < img1.width ∧ y + dy < img1.height) = true := by
        simp only [decide_eq_true_eq]; exact ⟨hxw, hyh⟩
      simp only [hb, if_false]
      by_cases hskip : pixelSkip rectsOpt partFlag (x + dx) (y + dy) = true
      · simp [hskip, hdec, ih]
      · simp only [Bool.not_eq_true] at hskip
        have h1 : getPixel img1 (x + dx) (y + dy) = some (img1.pix (x + dx) (y + dy)) := by
          simp [getPixel, hxw, hyh]
        have h2 : getPixel img2 (x + dx) (y + dy) = some (img2.pix (x + dx) (y + dy)) := by
          have : x + dx < img2.width := by omega
          have : y + dy < img2.height := by omega
          simp [getPixel, *]
        simp only [hskip, Bool.false_eq_true, if_false, h1, h2]
        by_cases hne : img1.pix (x + dx) (y + dy) ≠ img2.pix (x + dx) (y + dy)
        · simp [hne, hdec]
        · simp only [ne_eq, not_not] at hne
          simp [hne, ih]

theorem compareGo_eq (img1 img2 : Image) (rectsOpt : Option (List Rectangle))
    (hw : img1.width ≤ img2.width) (hh : img1.height ≤ img2.height) :
    ∀ coords : List (Nat × Nat),
      compareGo img1 img2 rectsOpt coords =
        some (coords.filter (chunkFlag img1 img2 rectsOpt)) := by
  intro coords
  induction coords with
  | nil => simp [compareGo]
  | cons c rest ih =>
    obtain ⟨x, y⟩ := c
    simp only [compareGo]
    have hfst : (chunkStatus rectsOpt x y).1 = chunkFullyIgnored rectsOpt x y := by
      simp [chunkStatus, chunkStatusGo_fst, chunkFullyIgnored]
    by_cases hign : chunkFullyIgnored rectsOpt x y = true
    · rw [hfst, hign]
      simp only [if_true, ih]
      have hflag : chunkFlag img1 img2 rectsOpt (x, y) = false := by
        simp [chunkFlag, hign]
      simp [List.filter_cons, hflag]
    · simp only [Bool.not_eq_true] at hign
      rw [hfst, hign]
      simp only [Bool.false_eq_true, if_false]
      have hsnd : (chunkStatus rectsOpt x y).2 = chunkPartFlag rectsOpt x y := by
        have := chunkStatusGo_snd x y (rectsOpt.getD []) false
        simp only [chunkStatus] at *
        rw [this]
        · simp [chunkPartFlag]
        · rw [chunkStatusGo_fst]
          simpa [chunkFullyIgnored] using hign
      rw [hsnd,
        scanChunk_eq img1 img2 rectsOpt (chunkPartFlag rectsOpt x y) x y hw hh tileOffsets]
      rw [ih]
      have hflag : chunkFlag img1 img2 rectsOpt (x, y) =
          tileOffsets.any (fun od =>
            decide (x + od.2 < img1.width ∧ y + od.1 < img1.height) &&
            !pixelSkip rectsOpt (chunkPartFlag rectsOpt x y) (x + od.2) (y + od.1) &&
            decide (img1.pix (x + od.2) (y + od.1) ≠ img2.pix (x + od.2) (y + od.1))) := by
        simp [chunkFlag, hign]
      rw [List.filter_cons, hflag]

/-- Characterisation of compare_images_in_chunks whenever img2 is at
least as large as img1 in both dimensions: the scan succeeds and returns
exactly the chunk origins whose flag is set. -/
theorem compare_eq_filter (img1 img2 : Image) (rectsOpt : Option (List Rectangle))
    (hw : img1.width ≤ img2.width) (hh : img1.height ≤ img2.height) :
    compare_images_in_chunks img1 img2 rectsOpt =
      some ((chunkCoords img1.width img1.height).filter
        (chunkFlag img1 img2 rectsOpt)) :=
  compareGo_eq img1 img2 rectsOpt hw hh _

theorem mem_chunkStarts {a n : Nat} : a ∈ chunkStarts n ↔ a % 10 = 0 ∧ a < n := by
  simp only [chunkStarts, List.mem_map, List.mem_range]
  constructor
  · rintro ⟨i, hi, rfl⟩; omega
  · rintro ⟨h10, hlt⟩; exact ⟨a / 10, by omega, by omega⟩

theorem mem_chunkCoords {a b w h : Nat} :
    (a, b) ∈ chunkCoords w h ↔ a % 10 = 0 ∧ b % 10 = 0 ∧ a < w ∧ b < h := by
  simp only [chunkCoords, List.mem_flatMap, List.mem_map, mem_chunkStarts, Prod.mk.injEq]
  constructor
  · rintro ⟨y, hy, x, hx, hxa, hyb⟩
    subst hxa; subst hyb
    exact ⟨hx.1, hy.1, hx.2, hy.2⟩
  · rintro ⟨ha, hb, haw, hbh⟩
    exact ⟨b, ⟨hb, hbh⟩, a, ⟨ha, haw⟩, rfl, rfl⟩

theorem mem_tileOffsets {dy dx : Nat} : (dy, dx) ∈ tileOffsets ↔ dy < 10 ∧ dx < 10 := by
  simp only [tileOffsets, List.mem_flatMap, List.mem_map, List.mem_range, Prod.mk.injEq]
  constructor
  · rintro ⟨y, hy, x, hx, hp, hq⟩; subst hp; subst hq; exact ⟨hy, hx⟩
  · rintro ⟨h1, h2⟩; exact ⟨dy, h1, dx, h2, rfl, rfl⟩

theorem chunkStarts_nodup (n : Nat) : (chunkStarts n).Nodup :=
  List.Nodup.map (fun a b hab => by omega) (List.nodup_range _)

theorem nodup_grid (xs ys : List Nat) (hx : xs.Nodup) (hy : ys.Nodup) :
    (ys.flatMap (fun y => xs.map (fun x => (x, y)))).Nodup := by
  induction ys with
  | nil => simp
  | cons y ys ih =>
    obtain ⟨hyn, hys⟩ := List.nodup_cons.1 hy
    simp only [List.flatMap_cons, List.nodup_append]
    refine ⟨List.Nodup.map (fun a b hab => by simpa using hab) hx, ih hys, ?_⟩
    intro p hp hq
    simp only [List.mem_map] at hp
    simp only [List.mem_flatMap, List.mem_map] at hq
    obtain ⟨x, _, rfl⟩ := hp
    obtain ⟨y', hy', x', _, hpq⟩ := hq
    apply hyn
    have : y' = y := by
      have := congrArg Prod.snd hpq
      simpa using this
    rwa [this] at hy'

theorem chunkCoords_nodup (w h : Nat) : (chunkCoords w h).Nodup :=
  nodup_grid (chunkStarts w) (chunkStarts h) (chunkStarts_nodup w) (chunkStarts_nodup h)

theorem filter_eq_singleton_of_unique {α : Type} {l : List α} {p : α → Bool} {a : α}
    (hnd : l.Nodup) (ha : a ∈ l) (hp : ∀ x ∈ l, (p x = true ↔ x = a)) :
    l.filter p = [a] := by
  induction l with
  | nil => cases ha
  | cons b l ih =>
    obtain ⟨hbl, hl⟩ := List.nodup_cons.1 hnd
    rcases List.mem_cons.1 ha with rfl | hal
    · have hpb : p a = true := (hp a (List.mem_cons_self _ _)).2 rfl
      have hnil : l.filter p = [] := by
        rw [List.filter_eq_nil_iff]
        intro x hx hpx
        have hxa : x = a := (hp x (List.mem_cons_of_mem _ hx)).1 hpx
        exact hbl (hxa ▸ hx)
      simp [List.filter_cons, hpb, hnil]
    · have hpb : p b = false := by
        cases hb : p b with
        | false => rfl
        | true =>
          have hba : b = a := (hp b (List.mem_cons_self _ _)).1 hb
          exact absurd (hba ▸ hal) hbl
      rw [List.filter_cons, if_neg (by simp [hpb])]
      exact ih hl hal (fun x hx => hp x (List.mem_cons_of_mem _ hx))

/-- C4: For every image A of any dimensions and any ignore-rectangle
list, comparing A against an identical copy of itself with
compare_images_in_chunks yields an empty DiffResult. -/
theorem compare_self_empty (A : Image) (rectsOpt : Option (List Rectangle)) :
    compare_images_in_chunks A A rectsOpt = some [] := by
  rw [compare_eq_filter A A rectsOpt le_rfl le_rfl]
  congr 1
  rw [List.filter_eq_nil_iff]
  intro c _
  simp [chunkFlag]

/-- C1: under equal dimensions, a chunk for which some ignore rectangle
contains both the corner (cx, cy) and the corner (cx+10, cy+10) is never
reported by compare_images_in_chunks, whatever the pixels do. -/
theorem fully_ignored_never_reported (img1 img2 : Image) (rects : List Rectangle)
    (cx cy : Nat) (hw : img1.width = img2.width) (hh : img1.height = img2.height)
    (hfull : rects.any
      (fun r => r.contains cx cy && r.contains (cx + 10) (cy + 10)) = true) :
    (cx, cy) ∉ (compare_images_in_chunks img1 img2 (some rects)).getD [] := by
  rw [compare_eq_filter img1 img2 (some rects) hw.le hh.le]
  simp only [Option.getD_some]
  intro hmem
  have hflag := (List.mem_filter.1 hmem).2
  simp [chunkFlag, chunkFullyIgnored, hfull] at hflag

/-- C1 witness: the chunk at (0,0) of two 20×20 images differing at
(5,5) is not reported when a rectangle spans (0,0)-(10,10). -/
theorem fully_ignored_never_reported_witness :
    (0, 0) ∉ (compare_images_in_chunks imgA20 imgB20 (some [rect010])).getD [] :=
  fully_ignored_never_reported imgA20 imgB20 [rect010] 0 0 rfl rfl (by decide)

/-- C10: compare_images_in_chunks reads img2 only inside img1's
dimensions, so whenever img2 is at least as large as img1 it runs with
no out-of-bounds access and behaves as if img2 were cropped to img1's
size. -/
theorem compare_crop (img1 img2 : Image) (rectsOpt : Option (List Rectangle))
    (hw : img1.width ≤ img2.width) (hh : img1.height ≤ img2.height) :
    (compare_images_in_chunks img1 img2 rectsOpt).isSome = true ∧
    compare_images_in_chunks img1 img2 rectsOpt =
      compare_images_in_chunks img1
        (Image.mk img1.width img1.height img2.pix) rectsOpt := by
  constructor
  · rw [compare_eq_filter img1 img2 rectsOpt hw hh]; rfl
  · rw [compare_eq_filter img1 img2 rectsOpt hw hh,
      compare_eq_filter img1 (Image.mk img1.width img1.height img2.pix) rectsOpt
        le_rfl le_rfl]
    rfl

/-- C2: a chunk that overlaps an ignore rectangle without being fully
contained is reported exactly when some pixel of its tile, inside the
image and outside every ignore rectangle, differs; and the spec's
concrete scenario (20×20 images differing only at (5,5), one all-page
rectangle with pixel bounds (0,0)-(9,9)) yields the empty list. -/
theorem partial_chunk_skips_only_rect_pixels :
    (∀ (img1 img2 : Image) (rects : List Rectangle) (cx cy : Nat),
      img1.width = img2.width → img1.height = img2.height →
      cx % 10 = 0 → cy % 10 = 0 → cx < img1.width → cy < img1.height →
      rects.any (fun r => r.overlaps cx cy 10) = true →
      rects.any (fun r => r.contains cx cy && r.contains (cx + 10) (cy + 10)) = false →
      ((cx, cy) ∈ (compare_images_in_chunks img1 img2 (some rects)).getD [] ↔
        ∃ dx dy, dx < 10 ∧ dy < 10 ∧
          cx + dx < img1.width ∧ cy + dy < img1.height ∧
          (∀ r ∈ rects, r.contains (cx + dx) (cy + dy) = false) ∧
          img1.pix (cx + dx) (cy + dy) ≠ img2.pix (cx + dx) (cy + dy))) ∧
    compare_images_in_chunks imgA20 imgB20 (some [rect09]) = some [] := by
  constructor
  · intro img1 img2 rects cx cy hw hh hcx hcy hcxlt hcylt hpart hnotfull
    rw [compare_eq_filter img1 img2 (some rects) hw.le hh.le]
    simp only [Option.getD_some]
    rw [List.mem_filter]
    have hmem : (cx, cy) ∈ chunkCoords img1.width img1.height :=
      mem_chunkCoords.2 ⟨hcx, hcy, hcxlt, hcylt⟩
    constructor
    · intro hand
      have hflag := hand.2
      simp only [chunkFlag, chunkFullyIgnored, chunkPartFlag, Option.getD_some,
        hnotfull, Bool.not_false, Bool.true_and, List.any_eq_true] at hflag
      obtain ⟨od, hod, hcond⟩ := hflag
      obtain ⟨dy, dx⟩ := od
      rw [mem_tileOffsets] at hod
      simp only [pixelSkip, hpart, Bool.true_and, Bool.and_eq_true,
        Bool.not_eq_true', decide_eq_true_eq] at hcond
      obtain ⟨⟨hb, hskip⟩, hne⟩ := hcond
      refine ⟨dx, dy, hod.2, hod.1, hb.1, hb.2, ?_, hne⟩
      intro r hr
      rcases hcr : r.contains (cx + dx) (cy + dy) with _ | _
      · rfl
      · exfalso
        have : rects.any (fun r => r.contains (cx + dx) (cy + dy)) = true :=
          List.any_eq_true.2 ⟨r, hr, hcr⟩
        rw [this] at hskip; cases hskip
    · rintro ⟨dx, dy, hdx, hdy, hbx, hby, hout, hne⟩
      refine ⟨hmem, ?_⟩
      simp only [chunkFlag, chunkFullyIgnored, chunkPartFlag, Option.getD_some,
        hnotfull, Bool.not_false, Bool.true_and]
      refine List.any_eq_true.2 ⟨(dy, dx), mem_tileOffsets.2 ⟨hdy, hdx⟩, ?_⟩
      have hskip : rects.any (fun r => r.contains (cx + dx) (cy + dy)) = false := by
        rw [List.any_eq_false]
        intro r hr
        simp [hout r hr]
      simp [pixelSkip, hpart, hbx, hby, hne, hskip]
  · decide

/-- C2 witness: the general part applied to the concrete 20×20 scenario
at chunk (0,0). -/
theorem partial_chunk_skips_only_rect_pixels_witness :
    (0, 0) ∈ (compare_images_in_chunks imgA20 imgB20 (some [rect09])).getD [] ↔
      ∃ dx dy, dx < 10 ∧ dy < 10 ∧
        0 + dx < imgA20.width ∧ 0 + dy < imgA20.height ∧
        (∀ r ∈ [rect09], r.contains (0 + dx) (0 + dy) = false) ∧
        imgA20.pix (0 + dx) (0 + dy) ≠ imgB20.pix (0 + dx) (0 + dy) :=
  partial_chunk_skips_only_rect_pixels.1 imgA20 imgB20 [rect09] 0 0
    rfl rfl rfl rfl (by decide) (by decide) (by decide) (by decide)

/-- C3: when exactly one pixel (px, py) differs and there are no ignore
rectangles, exactly the chunk at (10*(px/10), 10*(py/10)) is reported;
and the spec's concrete 20×20 scenario yields [(0, 0)]. -/
theorem single_diff_single_chunk :
    (∀ (img1 img2 : Image) (px py : Nat),
      img1.width = img2.width → img1.height = img2.height →
      px < img1.width → py < img1.height →
      img1.pix px py ≠ img2.pix px py →
      (∀ x, x < img1.width → ∀ y, y < img1.height →
        ¬(x = px ∧ y = py) → img1.pix x y = img2.pix x y) →
      compare_images_in_chunks img1 img2 none =
        some [(10 * (px / 10), 10 * (py / 10))]) ∧
    compare_images_in_chunks imgA20 imgB20 none = some [(0, 0)] := by
  constructor
  · intro img1 img2 px py hw hh hpx hpy hne hsame
    rw [compare_eq_filter img1 img2 none hw.le hh.le]
    congr 1
    apply filter_eq_singleton_of_unique (chunkCoords_nodup _ _)
      (mem_chunkCoords.2 ⟨by omega, by omega, by omega, by omega⟩)
    intro c hc
    obtain ⟨a, b⟩ := c
    rw [mem_chunkCoords] at hc
    constructor
    · intro hflag
      simp only [chunkFlag, chunkFullyIgnored, chunkPartFlag, Option.getD_none,
        List.any_nil, Bool.not_false, Bool.true_and, List.any_eq_true] at hflag
      obtain ⟨od, hod, hcond⟩ := hflag
      obtain ⟨dy, dx⟩ := od
      rw [mem_tileOffsets] at hod
      simp only [pixelSkip, List.any_nil, Bool.and_false, Bool.not_false,
        Bool.true_and, Bool.and_eq_true, decide_eq_true_eq] at hcond
      obtain ⟨⟨hb, -⟩, hdiff⟩ := hcond
      have heq : a + dx = px ∧ b + dy = py := by
        by_contra hcon
        exact hdiff (hsame _ hb.1 _ hb.2 hcon)
      have ha : a = 10 * (px / 10) := by omega
      have hb' : b = 10 * (py / 10) := by omega
      rw [ha, hb']
    · intro hceq
      cases hceq
      simp only [chunkFlag, chunkFullyIgnored, chunkPartFlag, Option.getD_none,
        List.any_nil, Bool.not_false, Bool.true_and, List.any_eq_true]
      refine ⟨(py % 10, px % 10), mem_tileOffsets.2 ⟨by omega, by omega⟩, ?_⟩
      have hx : 10 * (px / 10) + px % 10 = px := by omega
      have hy : 10 * (py / 10) + py % 10 = py := by omega
      simp only [hx, hy, pixelSkip, List.any_nil, Bool.and_false, Bool.not_false,
        Bool.true_and, Bool.and_eq_true, decide_eq_true_eq]
      exact ⟨⟨⟨hpx, hpy⟩, trivial⟩, hne⟩
  · decide

/-- C3 witness: the general part applied to the 20×20 pair differing at
pixel (5,5). -/
theorem single_diff_single_chunk_witness :
    compare_images_in_chunks imgA20 imgB20 none =
      some [(10 * (5 / 10), 10 * (5 / 10))] :=
  single_diff_single_chunk.1 imgA20 imgB20 5 5 rfl rfl (by decide) (by decide)
    (by decide) (by decide)

/-- C10 witness at a 1×1 image compared against a 2×2 image. -/
theorem compare_crop_witness :
    (compare_images_in_chunks oneRed imgC10 none).isSome = true ∧
    compare_images_in_chunks oneRed imgC10 none =
      compare_images_in_chunks oneRed
        (Image.mk oneRed.width oneRed.height imgC10.pix) none :=
  compare_crop oneRed imgC10 none (by decide) (by decide)

/-!
Lemmas about highlight_chunks.
-/

theorem setPix_pix (im : Image) (a b : Nat) (p : Rgba) (x y : Nat) :
    (setPix im a b p).pix x y = if x = a ∧ y = b then p else im.pix x y := rfl

theorem highlightPixelStep_width (im : Image) (x y : Nat) :
    (highlightPixelStep im x y).width = im.width := by
  unfold highlightPixelStep; split <;> rfl

theorem highlightPixelStep_height (im : Image) (x y : Nat) :
    (highlightPixelStep im x y).height = im.height := by
  unfold highlightPixelStep; split <;> rfl

theorem highlightPixelStep_pix (im : Image) (a b x y : Nat) :
    (highlightPixelStep im a b).pix x y =
      if x = a ∧ y = b ∧ x < im.width ∧ y < im.height
      then recolorPixel (im.pix x y) else im.pix x y := by
  unfold highlightPixelStep
  by_cases hb : a < im.width ∧ b < im.height
  · rw [if_pos hb, setPix_pix]
    by_cases hxy : x = a ∧ y = b
    · obtain ⟨rfl, rfl⟩ := hxy
      simp [hb]
    · rw [if_neg hxy, if_neg (by tauto)]
  · rw [if_neg hb, if_neg ?_]
    rintro ⟨rfl, rfl, h1, h2⟩
    exact hb ⟨h1, h2⟩

theorem mem_highlightOffsets {dx dy : Nat} :
    (dx, dy) ∈ highlightOffsets ↔ dx < 10 ∧ dy < 10 := by
  simp only [highlightOffsets, List.mem_flatMap, List.mem_map, List.mem_range,
    Prod.mk.injEq]
  constructor
  · rintro ⟨u, hu, v, hv, hp, hq⟩; subst hp; subst hq; exact ⟨hu, hv⟩
  · rintro ⟨h1, h2⟩; exact ⟨dx, h1, dy, h2, rfl, rfl⟩

theorem nodup_grid_fst (xs ys : List Nat) (hx : xs.Nodup) (hy : ys.Nodup) :
    (xs.flatMap (fun a => ys.map (fun b => (a, b)))).Nodup := by
  induction xs with
  | nil => simp
  | cons a xs ih =>
    obtain ⟨han, hxs⟩ := List.nodup_cons.1 hx
    simp only [List.flatMap_cons, List.nodup_append]
    refine ⟨List.Nodup.map (fun u v huv => by simpa using huv) hy, ih hxs, ?_⟩
    intro p hp hq
    simp only [List.mem_map] at hp
    simp only [List.mem_flatMap, List.mem_map] at hq
    obtain ⟨b, _, rfl⟩ := hp
    obtain ⟨a', ha', b', _, hpq⟩ := hq
    apply han
    have : a' = a := by
      have := congrArg Prod.fst hpq
      simpa using this
    rwa [this] at ha'

theorem highlightOffsets_nodup : highlightOffsets.Nodup :=
  nodup_grid_fst (List.range 10) (List.range 10)
    (List.nodup_range _) (List.nodup_range _)

theorem foldl_highlight_width (c : Nat × Nat) :
    ∀ (L : List (Nat × Nat)) (im : Image),
      ((L.foldl (fun im od => highlightPixelStep im (c.1 + od.1) (c.2 + od.2)) im).width
          = im.width ∧
       (L.foldl (fun im od => highlightPixelStep im (c.1 + od.1) (c.2 + od.2)) im).height
          = im.height) := by
  intro L
  induction L with
  | nil => intro im; exact ⟨rfl, rfl⟩
  | cons od L ih =>
    intro im
    simp only [List.foldl_cons]
    refine ⟨?_, ?_⟩
    · rw [(ih _).1, highlightPixelStep_width]
    · rw [(ih _).2, highlightPixelStep_height]

theorem foldl_highlight_pix (c : Nat × Nat) :
    ∀ (L : List (Nat × Nat)), L.Nodup →
    ∀ (im : Image) (x y : Nat),
      (L.foldl (fun im od => highlightPixelStep im (c.1 + od.1) (c.2 + od.2)) im).pix x y =
        if (∃ od ∈ L, c.1 + od.1 = x ∧ c.2 + od.2 = y) ∧ x < im.width ∧ y < im.height
        then recolorPixel (im.pix x y) else im.pix x y := by
  intro L
  induction L with
  | nil =>
    intro _ im x y
    simp
  | cons od0 L ih =>
    intro hnd im x y
    obtain ⟨hod0, hL⟩ := List.nodup_cons.1 hnd
    simp only [List.foldl_cons]
    rw [ih hL]
    rw [highlightPixelStep_width, highlightPixelStep_height, highlightPixelStep_pix]
    by_cases hbnd : x < im.width ∧ y < im.height
    · by_cases hit0 : x = c.1 + od0.1 ∧ y = c.2 + od0.2
      · obtain ⟨rfl, rfl⟩ := hit0
        have hnot : ¬ ∃ od ∈ L,
            c.1 + od.1 = c.1 + od0.1 ∧ c.2 + od.2 = c.2 + od0.2 := by
          rintro ⟨od, hodL, h1, h2⟩
          have hoe : od = od0 := by
            obtain ⟨u, v⟩ := od; obtain ⟨u0, v0⟩ := od0
            simp only [Prod.mk.injEq]
            simp only at h1 h2
            omega
          exact hod0 (hoe ▸ hodL)
        have hcond1 : ¬((∃ od ∈ L,
            c.1 + od.1 = c.1 + od0.1 ∧ c.2 + od.2 = c.2 + od0.2) ∧
            c.1 + od0.1 < im.width ∧ c.2 + od0.2 < im.height) :=
          fun hcon => hnot hcon.1
        have hcond2 : (∃ od ∈ od0 :: L,
            c.1 + od.1 = c.1 + od0.1 ∧ c.2 + od.2 = c.2 + od0.2) ∧
            c.1 + od0.1 < im.width ∧ c.2 + od0.2 < im.height :=
          ⟨⟨od0, List.mem_cons_self _ _, rfl, rfl⟩, hbnd⟩
        have hcond3 : c.1 + od0.1 = c.1 + od0.1 ∧ c.2 + od0.2 = c.2 + od0.2 ∧
            c.1 + od0.1 < im.width ∧ c.2 + od0.2 < im.height :=
          ⟨rfl, rfl, hbnd.1, hbnd.2⟩
        rw [if_pos hcond3, if_neg hcond1, if_pos hcond2]
      · have hcond0 : ¬(x = c.1 + od0.1 ∧ y = c.2 + od0.2 ∧
            x < im.width ∧ y < im.height) := by tauto
        rw [if_neg hcond0]
        by_cases hex : ∃ od ∈ L, c.1 + od.1 = x ∧ c.2 + od.2 = y
        · have hex2 : (∃ od ∈ od0 :: L, c.1 + od.1 = x ∧ c.2 + od.2 = y) ∧
              x < im.width ∧ y < im.height := by
            obtain ⟨od, hodL, h1, h2⟩ := hex
            exact ⟨⟨od, List.mem_cons_of_mem _ hodL, h1, h2⟩, hbnd⟩
          rw [if_pos ⟨hex, hbnd⟩, if_pos hex2]
        · have hnex2 : ¬((∃ od ∈ od0 :: L, c.1 + od.1 = x ∧ c.2 + od.2 = y) ∧
              x < im.width ∧ y < im.height) := by
            rintro ⟨⟨od, hod, h1, h2⟩, -⟩
            rcases List.mem_cons.1 hod with rfl | hodL
            · exact hit0 ⟨h1.symm, h2.symm⟩
            · exact hex ⟨od, hodL, h1, h2⟩
          rw [if_neg (fun hcon => hex ((and_iff_left hbnd).1 hcon)), if_neg hnex2]
    · have h1 : ¬(x = c.1 + od0.1 ∧ y = c.2 + od0.2 ∧
          x < im.width ∧ y < im.height) := by tauto
      rw [if_neg h1, if_neg (fun hcon => hbnd hcon.2), if_neg (fun hcon => hbnd hcon.2)]

theorem highlightChunk_width (im : Image) (c : Nat × Nat) :
    (highlightChunk im c).width = im.width :=
  (foldl_highlight_width c highlightOffsets im).1

theorem highlightChunk_height (im : Image) (c : Nat × Nat) :
    (highlightChunk im c).height = im.height :=
  (foldl_highlight_width c highlightOffsets im).2

theorem highlightChunk_pix (im : Image) (c : Nat × Nat) (x y : Nat) :
    (highlightChunk im c).pix x y =
      if inTile c x y ∧ x < im.width ∧ y < im.height
      then recolorPixel (im.pix x y) else im.pix x y := by
  unfold highlightChunk
  rw [foldl_highlight_pix c highlightOffsets highlightOffsets_nodup]
  have hiff : (∃ od ∈ highlightOffsets, c.1 + od.1 = x ∧ c.2 + od.2 = y) ↔
      inTile c x y := by
    constructor
    · rintro ⟨⟨u, v⟩, hmem, h1, h2⟩
      rw [mem_highlightOffsets] at hmem
      unfold inTile
      omega
    · intro ht
      obtain ⟨h1, h2, h3, h4⟩ := ht
      exact ⟨(x - c.1, y - c.2),
        mem_highlightOffsets.2 ⟨by omega, by omega⟩, by simp; omega, by simp; omega⟩
  by_cases h : inTile c x y ∧ x < im.width ∧ y < im.height
  · rw [if_pos ⟨hiff.2 h.1, h.2⟩, if_pos h]
  · rw [if_neg (fun hcon => h ⟨hiff.1 hcon.1, hcon.2⟩), if_neg h]

theorem highlight_chunks_width (image : Image) :
    ∀ (chunks : List (Nat × Nat)),
      (highlight_chunks image chunks).width = image.width ∧
      (highlight_chunks image chunks).height = image.height := by
  suffices h : ∀ (chunks : List (Nat × Nat)) (im : Image),
      (chunks.foldl highlightChunk im).width = im.width ∧
      (chunks.foldl highlightChunk im).height = im.height by
    intro chunks; exact h chunks image
  intro chunks
  induction chunks with
  | nil => intro im; exact ⟨rfl, rfl⟩
  | cons c cs ih =>
    intro im
    simp only [List.foldl_cons]
    refine ⟨?_, ?_⟩
    · rw [(ih _).1, highlightChunk_width]
    · rw [(ih _).2, highlightChunk_height]

theorem highlight_chunks_pix :
    ∀ (chunks : List (Nat × Nat)), chunks.Pairwise tilesApart →
    ∀ (image : Image) (x y : Nat),
      (highlight_chunks image chunks).pix x y =
        if (∃ c ∈ chunks, inTile c x y) ∧ x < image.width ∧ y < image.height
        then recolorPixel (image.pix x y) else image.pix x y := by
  intro chunks
  induction chunks with
  | nil =>
    intro _ image x y
    simp [highlight_chunks]
  | cons c cs ih =>
    intro hdisj image x y
    obtain ⟨hc, hcs⟩ := List.pairwise_cons.1 hdisj
    have hstep : highlight_chunks image (c :: cs) =
        highlight_chunks (highlightChunk image c) cs := by
      unfold highlight_chunks
      rw [List.foldl_cons]
    rw [hstep, ih hcs]
    rw [highlightChunk_width, highlightChunk_height, highlightChunk_pix]
    by_cases hbnd : x < image.width ∧ y < image.height
    · by_cases hex : ∃ c' ∈ cs, inTile c' x y
      · obtain ⟨c', hc's, ht'⟩ := hex
        have hnotc : ¬ inTile c x y := by
          have := hc c' hc's
          unfold tilesApart at this
          unfold inTile at ht' ⊢
          omega
        have hin : ¬(inTile c x y ∧ x < image.width ∧ y < image.height) :=
          fun hcon => hnotc hcon.1
        have hl : (∃ c' ∈ cs, inTile c' x y) ∧
            x < image.width ∧ y < image.height := ⟨⟨c', hc's, ht'⟩, hbnd⟩
        have hr : (∃ c0 ∈ c :: cs, inTile c0 x y) ∧
            x < image.width ∧ y < image.height :=
          ⟨⟨c', List.mem_cons_of_mem _ hc's, ht'⟩, hbnd⟩
        rw [if_neg hin, if_pos hl, if_pos hr]
      · have houter : ¬((∃ c' ∈ cs, inTile c' x y) ∧
            x < image.width ∧ y < image.height) := fun hcon => hex hcon.1
        rw [if_neg houter]
        by_cases htc : inTile c x y
        · have hr : (∃ c0 ∈ c :: cs, inTile c0 x y) ∧
              x < image.width ∧ y < image.height :=
            ⟨⟨c, List.mem_cons_self _ _, htc⟩, hbnd⟩
          rw [if_pos ⟨htc, hbnd⟩, if_pos hr]
        · have hnex : ¬((∃ c0 ∈ c :: cs, inTile c0 x y) ∧
              x < image.width ∧ y < image.height) := by
            rintro ⟨⟨c0, hc0, ht0⟩, -⟩
            rcases List.mem_cons.1 hc0 with rfl | hc0s
            · exact htc ht0
            · exact hex ⟨c0, hc0s, ht0⟩
          rw [if_neg (fun hcon => htc hcon.1), if_neg hnex]
    · have h1 : ¬(inTile c x y ∧ x < image.width ∧ y < image.height) :=
        fun hcon => hbnd hcon.2
      have h2 : ¬((∃ c' ∈ cs, inTile c' x y) ∧
          x < image.width ∧ y < image.height) := fun hcon => hbnd hcon.2
      have h3 : ¬((∃ c0 ∈ c :: cs, inTile c0 x y) ∧
          x < image.width ∧ y < image.height) := fun hcon => hbnd hcon.2
      rw [if_neg h1, if_neg h2, if_neg h3]

theorem recolorPixel_alpha (p : Rgba) : (recolorPixel p).a = p.a := by
  unfold recolorPixel; split
  · rfl
  · split <;> rfl

set_option maxRecDepth 10000 in
/-- C6 counterexample: when the same chunk origin is listed twice, the
pixel is recolored twice, so its final value is not the classification
of the pre-existing pixel: the dark pixel (0,0,0,255) should map to
(249,133,139) but ends as (118,17,55). -/
theorem highlight_chunks_not_preexisting :
    (highlight_chunks oneDark [(0, 0), (0, 0)]).pix 0 0 ≠
        recolorPixel (oneDark.pix 0 0) ∧
    (highlight_chunks oneDark [(0, 0), (0, 0)]).pix 0 0 = ⟨118, 17, 55, 255⟩ ∧
    recolorPixel (oneDark.pix 0 0) = ⟨249, 133, 139, 255⟩ := by decide

/-- C6 (amended): provided the listed chunks' 10×10 tiles are pairwise
disjoint (as holds for the distinct multiple-of-10 origins produced by
compare_images_in_chunks), highlight_chunks returns a copy in which
every pixel of a listed chunk that lies inside the image has its RGB
replaced according to the classification of the pre-existing pixel
value — R<150∧G<150∧B<150 → (249,133,139); else R>215∧G<215∧B<215 →
(118,17,55); else (237,51,95) — alpha is unchanged everywhere, and every
pixel outside all listed chunks (or outside the image bounds) is
bit-identical to the source. -/
theorem highlight_chunks_spec (image : Image) (chunks : List (Nat × Nat))
    (hdisj : chunks.Pairwise tilesApart) :
    (highlight_chunks image chunks).width = image.width ∧
    (highlight_chunks image chunks).height = image.height ∧
    (∀ x y, x < image.width → y < image.height → (∃ c ∈ chunks, inTile c x y) →
      (highlight_chunks image chunks).pix x y = recolorPixel (image.pix x y)) ∧
    (∀ x y, (∀ c ∈ chunks, ¬ inTile c x y) →
      (highlight_chunks image chunks).pix x y = image.pix x y) ∧
    (∀ x y, x ≥ image.width ∨ y ≥ image.height →
      (highlight_chunks image chunks).pix x y = image.pix x y) ∧
    (∀ x y, ((highlight_chunks image chunks).pix x y).a = (image.pix x y).a) := by
  refine ⟨(highlight_chunks_width image chunks).1,
    (highlight_chunks_width image chunks).2, ?_, ?_, ?_, ?_⟩
  · intro x y hx hy hex
    rw [highlight_chunks_pix chunks hdisj image x y, if_pos ⟨hex, hx, hy⟩]
  · intro x y hout
    rw [highlight_chunks_pix chunks hdisj image x y, if_neg ?_]
    rintro ⟨⟨c, hc, ht⟩, -⟩
    exact hout c hc ht
  · intro x y hob
    rw [highlight_chunks_pix chunks hdisj image x y, if_neg ?_]
    rintro ⟨-, hx, hy⟩
    omega
  · intro x y
    rw [highlight_chunks_pix chunks hdisj image x y]
    split
    · rw [recolorPixel_alpha]
    · rfl

/-- C6 witness: the amended statement applied to a 20×20 image with the
disjoint chunk list [(0,0), (10,10)], evaluated at a pixel inside a
listed tile and at one outside every listed tile. -/
theorem highlight_chunks_spec_witness :
    (highlight_chunks imgA20 [(0, 0), (10, 10)]).pix 5 5 =
      recolorPixel (imgA20.pix 5 5) ∧
    (highlight_chunks imgA20 [(0, 0), (10, 10)]).pix 5 15 = imgA20.pix 5 15 :=
  ⟨(highlight_chunks_spec imgA20 [(0, 0), (10, 10)] (by decide)).2.2.1 5 5
      (by decide) (by decide) ⟨(0, 0), List.mem_cons_self _ _, by decide⟩,
   (highlight_chunks_spec imgA20 [(0, 0), (10, 10)] (by decide)).2.2.2.1 5 15
      (by decide)⟩

/-!
Lemmas about draw_ignored_rectangles.
-/

theorem set_ignored_width (im : Image) (x y : Int) :
    (set_ignored_pixel_border_color im x y).width = im.width := by
  unfold set_ignored_pixel_border_color
  split
  · split <;> rfl
  · rfl

theorem set_ignored_height (im : Image) (x y : Int) :
    (set_ignored_pixel_border_color im x y).height = im.height := by
  unfold set_ignored_pixel_border_color
  split
  · split <;> rfl
  · rfl

theorem paint_alpha (x y : Int) (p : Rgba) : (paint x y p).a = p.a := by
  unfold paint; split <;> rfl

theorem paint_paint (x y : Int) (p : Rgba) :
    paint x y (paint x y p) = paint x y p := by
  unfold paint; split <;> rfl

theorem set_ignored_pix (im : Image) (x y : Int) (px py : Nat) :
    (set_ignored_pixel_border_color im x y).pix px py =
      if x = (px : Int) ∧ y = (py : Int) ∧ px < im.width ∧ py < im.height
      then paint x y (im.pix px py) else im.pix px py := by
  unfold set_ignored_pixel_border_color
  by_cases hg : 0 ≤ x ∧ x < (im.width : Int) ∧ 0 ≤ y ∧ y < (im.height : Int)
  · rw [if_pos hg]
    obtain ⟨hx0, hxw, hy0, hyh⟩ := hg
    by_cases hxy : x = (px : Int) ∧ y = (py : Int)
    · obtain ⟨hx, hy⟩ := hxy
      have hxt : x.toNat = px := by omega
      have hyt : y.toNat = py := by omega
      have hpw : px < im.width := by omega
      have hph : py < im.height := by omega
      unfold paint
      by_cases hp : (x + y) % 2 = 0
      · rw [if_pos hp, if_pos ⟨hx, hy, hpw, hph⟩, if_pos hp, setPix_pix,
          if_pos ⟨hxt.symm, hyt.symm⟩, hxt, hyt]
      · rw [if_neg hp, if_pos ⟨hx, hy, hpw, hph⟩, if_neg hp, setPix_pix,
          if_pos ⟨hxt.symm, hyt.symm⟩, hxt, hyt]
    · have hne : ¬(px = x.toNat ∧ py = y.toNat) := by
        intro hcon
        exact hxy ⟨by omega, by omega⟩
      have hrhs : ¬(x = (px : Int) ∧ y = (py : Int) ∧
          px < im.width ∧ py < im.height) :=
        fun hcon => hxy ⟨hcon.1, hcon.2.1⟩
      by_cases hp : (x + y) % 2 = 0
      · rw [if_pos hp, setPix_pix, if_neg hne, if_neg hrhs]
      · rw [if_neg hp, setPix_pix, if_neg hne, if_neg hrhs]
  · rw [if_neg hg, if_neg ?_]
    rintro ⟨rfl, rfl, h1, h2⟩
    exact hg ⟨by omega, by omega, by omega, by omega⟩

theorem drawHstep_dims (tly bry : Int) (im : Image) (x0 : Int) :
    ((if 0 ≤ x0 ∧ x0 < (im.width : Int) then
        set_ignored_pixel_border_color
          (set_ignored_pixel_border_color im x0 tly) x0 bry
      else im).width = im.width ∧
     (if 0 ≤ x0 ∧ x0 < (im.width : Int) then
        set_ignored_pixel_border_color
          (set_ignored_pixel_border_color im x0 tly) x0 bry
      else im).height = im.height) := by
  split
  · rw [set_ignored_width, set_ignored_width, set_ignored_height, set_ignored_height]
    exact ⟨rfl, rfl⟩
  · exact ⟨rfl, rfl⟩

theorem drawHstep_pix (tly bry : Int) (im : Image) (x0 : Int) (px py : Nat) :
    ((if 0 ≤ x0 ∧ x0 < (im.width : Int) then
        set_ignored_pixel_border_color
          (set_ignored_pixel_border_color im x0 tly) x0 bry
      else im).pix px py) =
      if x0 = (px : Int) ∧ ((py : Int) = tly ∨ (py : Int) = bry) ∧
          px < im.width ∧ py < im.height
      then paint (px : Int) (py : Int) (im.pix px py) else im.pix px py := by
  by_cases hg : 0 ≤ x0 ∧ x0 < (im.width : Int)
  · rw [if_pos hg]
    rw [set_ignored_pix, set_ignored_width, set_ignored_height, set_ignored_pix]
    by_cases hbnd : px < im.width ∧ py < im.height
    · by_cases hx : x0 = (px : Int)
      · subst hx
        by_cases hbr : bry = (py : Int)
        · subst hbr
          rw [if_pos ⟨rfl, rfl, hbnd.1, hbnd.2⟩]
          by_cases htl : tly = (py : Int)
          · subst htl
            rw [if_pos ⟨rfl, rfl, hbnd.1, hbnd.2⟩, paint_paint,
              if_pos ⟨rfl, Or.inl rfl, hbnd⟩]
          · rw [if_neg (fun hcon => htl hcon.2.1),
              if_pos ⟨rfl, Or.inr rfl, hbnd⟩]
        · rw [if_neg (fun hcon => hbr hcon.2.1)]
          by_cases htl : tly = (py : Int)
          · subst htl
            rw [if_pos ⟨rfl, rfl, hbnd.1, hbnd.2⟩,
              if_pos ⟨rfl, Or.inl rfl, hbnd⟩]
          · rw [if_neg (fun hcon => htl hcon.2.1), if_neg ?_]
            rintro ⟨-, hrow, -⟩
            rcases hrow with h | h
            · exact htl h.symm
            · exact hbr h.symm
      · rw [if_neg (fun hcon => hx hcon.1), if_neg (fun hcon => hx hcon.1),
          if_neg (fun hcon => hx hcon.1)]
    · rw [if_neg (fun hcon => hbnd ⟨hcon.2.2.1, hcon.2.2.2⟩),
        if_neg (fun hcon => hbnd ⟨hcon.2.2.1, hcon.2.2.2⟩),
        if_neg (fun hcon => hbnd hcon.2.2)]
  · rw [if_neg hg, if_neg ?_]
    rintro ⟨rfl, -, h1, -⟩
    exact hg ⟨by omega, by omega⟩

theorem drawH_fold_dims (tly bry : Int) :
    ∀ (xs : List Int) (im : Image),
      ((xs.foldl (fun im x => if 0 ≤ x ∧ x < (im.width : Int) then
          set_ignored_pixel_border_color
            (set_ignored_pixel_border_color im x tly) x bry
        else im) im).width = im.width ∧
       (xs.foldl (fun im x => if 0 ≤ x ∧ x < (im.width : Int) then
          set_ignored_pixel_border_color
            (set_ignored_pixel_border_color im x tly) x bry
        else im) im).height = im.height) := by
  intro xs
  induction xs with
  | nil => intro im; exact ⟨rfl, rfl⟩
  | cons x0 xs ih =>
    intro im
    simp only [List.foldl_cons]
    refine ⟨?_, ?_⟩
    · rw [(ih _).1, (drawHstep_dims tly bry im x0).1]
    · rw [(ih _).2, (drawHstep_dims tly bry im x0).2]

theorem drawH_fold_pix (tly bry : Int) :
    ∀ (xs : List Int) (im : Image) (px py : Nat),
      ((xs.foldl (fun im x => if 0 ≤ x ∧ x < (im.width : Int) then
          set_ignored_pixel_border_color
            (set_ignored_pixel_border_color im x tly) x bry
        else im) im).pix px py) =
        if (px : Int) ∈ xs ∧ ((py : Int) = tly ∨ (py : Int) = bry) ∧
            px < im.width ∧ py < im.height
        then paint (px : Int) (py : Int) (im.pix px py) else im.pix px py := by
  intro xs
  induction xs with
  | nil =>
    intro im px py
    simp
  | cons x0 xs ih =>
    intro im px py
    simp only [List.foldl_cons]
    rw [ih]
    rw [(drawHstep_dims tly bry im x0).1, (drawHstep_dims tly bry im x0).2,
      drawHstep_pix]
    by_cases hrb : ((py : Int) = tly ∨ (py : Int) = bry) ∧
        px < im.width ∧ py < im.height
    · by_cases hmem : (px : Int) ∈ xs
      · rw [if_pos ⟨hmem, hrb⟩]
        by_cases hx0 : x0 = (px : Int)
        · rw [if_pos ⟨hx0, hrb⟩, paint_paint,
            if_pos ⟨List.mem_cons_of_mem _ hmem, hrb⟩]
        · rw [if_neg (fun hcon => hx0 hcon.1),
            if_pos ⟨List.mem_cons_of_mem _ hmem, hrb⟩]
      · rw [if_neg (fun hcon => hmem hcon.1)]
        by_cases hx0 : x0 = (px : Int)
        · rw [if_pos ⟨hx0, hrb⟩,
            if_pos ⟨by rw [List.mem_cons]; exact Or.inl hx0.symm, hrb⟩]
        · rw [if_neg (fun hcon => hx0 hcon.1), if_neg ?_]
          rintro ⟨hm, -⟩
          rcases List.mem_cons.1 hm with h | h
          · exact hx0 h.symm
          · exact hmem h
    · rw [if_neg (fun hcon => hrb hcon.2), if_neg (fun hcon => hrb hcon.2),
        if_neg (fun hcon => hrb hcon.2)]

theorem drawVstep_dims (tlx brx : Int) (im : Image) (y0 : Int) :
    ((if 0 ≤ y0 ∧ y0 < (im.height : Int) then
        set_ignored_pixel_border_color
          (set_ignored_pixel_border_color im tlx y0) brx y0
      else im).width = im.width ∧
     (if 0 ≤ y0 ∧ y0 < (im.height : Int) then
        set_ignored_pixel_border_color
          (set_ignored_pixel_border_color im tlx y0) brx y0
      else im).height = im.height) := by
  split
  · rw [set_ignored_width, set_ignored_width, set_ignored_height, set_ignored_height]
    exact ⟨rfl, rfl⟩
  · exact ⟨rfl, rfl⟩

theorem drawVstep_pix (tlx brx : Int) (im : Image) (y0 : Int) (px py : Nat) :
    ((if 0 ≤ y0 ∧ y0 < (im.height : Int) then
        set_ignored_pixel_border_color
          (set_ignored_pixel_border_color im tlx y0) brx y0
      else im).pix px py) =
      if y0 = (py : Int) ∧ ((px : Int) = tlx ∨ (px : Int) = brx) ∧
          px < im.width ∧ py < im.height
      then paint (px : Int) (py : Int) (im.pix px py) else im.pix px py := by
  by_cases hg : 0 ≤ y0 ∧ y0 < (im.height : Int)
  · rw [if_pos hg]
    rw [set_ignored_pix, set_ignored_width, set_ignored_height, set_ignored_pix]
    by_cases hbnd : px < im.width ∧ py < im.height
    · by_cases hy : y0 = (py : Int)
      · subst hy
        by_cases hbr : brx = (px : Int)
        · subst hbr
          rw [if_pos ⟨rfl, rfl, hbnd.1, hbnd.2⟩]
          by_cases htl : tlx = (px : Int)
          · subst htl
            rw [if_pos ⟨rfl, rfl, hbnd.1, hbnd.2⟩, paint_paint,
              if_pos ⟨rfl, Or.inl rfl, hbnd⟩]
          · rw [if_neg (fun hcon => htl hcon.1),
              if_pos ⟨rfl, Or.inr rfl, hbnd⟩]
        · rw [if_neg (fun hcon => hbr hcon.1)]
          by_cases htl : tlx = (px : Int)
          · subst htl
            rw [if_pos ⟨rfl, rfl, hbnd.1, hbnd.2⟩,
              if_pos ⟨rfl, Or.inl rfl, hbnd⟩]
          · rw [if_neg (fun hcon => htl hcon.1), if_neg ?_]
            rintro ⟨-, hcol, -⟩
            rcases hcol with h | h
            · exact htl h.symm
            · exact hbr h.symm
      · rw [if_neg (fun hcon => hy hcon.2.1), if_neg (fun hcon => hy hcon.2.1),
          if_neg (fun hcon => hy hcon.1)]
    · rw [if_neg (fun hcon => hbnd ⟨hcon.2.2.1, hcon.2.2.2⟩),
        if_neg (fun hcon => hbnd ⟨hcon.2.2.1, hcon.2.2.2⟩),
        if_neg (fun hcon => hbnd hcon.2.2)]
  · rw [if_neg hg, if_neg ?_]
    rintro ⟨rfl, -, -, h2⟩
    exact hg ⟨by omega, by omega⟩

theorem drawV_fold_dims (tlx brx : Int) :
    ∀ (ys : List Int) (im : Image),
      ((ys.foldl (fun im y => if 0 ≤ y ∧ y < (im.height : Int) then
          set_ignored_pixel_border_color
            (set_ignored_pixel_border_color im tlx y) brx y
        else im) im).width = im.width ∧
       (ys.foldl (fun im y => if 0 ≤ y ∧ y < (im.height : Int) then
          set_ignored_pixel_border_color
            (set_ignored_pixel_border_color im tlx y) brx y
        else im) im).height = im.height) := by
  intro ys
  induction ys with
  | nil => intro im; exact ⟨rfl, rfl⟩
  | cons y0 ys ih =>
    intro im
    simp only [List.foldl_cons]
    refine ⟨?_, ?_⟩
    · rw [(ih _).1, (drawVstep_dims tlx brx im y0).1]
    · rw [(ih _).2, (drawVstep_dims tlx brx im y0).2]

theorem drawV_fold_pix (tlx brx : Int) :
    ∀ (ys : List Int) (im : Image) (px py : Nat),
      ((ys.foldl (fun im y => if 0 ≤ y ∧ y < (im.height : Int) then
          set_ignored_pixel_border_color
            (set_ignored_pixel_border_color im tlx y) brx y
        else im) im).pix px py) =
        if (py : Int) ∈ ys ∧ ((px : Int) = tlx ∨ (px : Int) = brx) ∧
            px < im.width ∧ py < im.height
        then paint (px : Int) (py : Int) (im.pix px py) else im.pix px py := by
  intro ys
  induction ys with
  | nil =>
    intro im px py
    simp
  | cons y0 ys ih =>
    intro im px py
    simp only [List.foldl_cons]
    rw [ih]
    rw [(drawVstep_dims tlx brx im y0).1, (drawVstep_dims tlx brx im y0).2,
      drawVstep_pix]
    by_cases hrb : ((px : Int) = tlx ∨ (px : Int) = brx) ∧
        px < im.width ∧ py < im.height
    · by_cases hmem : (py : Int) ∈ ys
      · rw [if_pos ⟨hmem, hrb⟩]
        by_cases hy0 : y0 = (py : Int)
        · rw [if_pos ⟨hy0, hrb⟩, paint_paint,
            if_pos ⟨List.mem_cons_of_mem _ hmem, hrb⟩]
        · rw [if_neg (fun hcon => hy0 hcon.1),
            if_pos ⟨List.mem_cons_of_mem _ hmem, hrb⟩]
      · rw [if_neg (fun hcon => hmem hcon.1)]
        by_cases hy0 : y0 = (py : Int)
        · rw [if_pos ⟨hy0, hrb⟩,
            if_pos ⟨by rw [List.mem_cons]; exact Or.inl hy0.symm, hrb⟩]
        · rw [if_neg (fun hcon => hy0 hcon.1), if_neg ?_]
          rintro ⟨hm, -⟩
          rcases List.mem_cons.1 hm with h | h
          · exact hy0 h.symm
          · exact hmem h
    · rw [if_neg (fun hcon => hrb hcon.2), if_neg (fun hcon => hrb hcon.2),
        if_neg (fun hcon => hrb hcon.2)]

theorem mem_intRange {z a b : Int} : z ∈ intRange a b ↔ a ≤ z ∧ z < b := by
  simp only [intRange, List.mem_map, List.mem_range]
  constructor
  · rintro ⟨i, hi, rfl⟩; omega
  · rintro ⟨h1, h2⟩
    exact ⟨(z - a).toNat, by omega, by omega⟩

theorem drawRect_dims (im : Image) (rect : Rectangle) :
    (drawRect im rect).width = im.width ∧
    (drawRect im rect).height = im.height := by
  unfold drawRect
  constructor
  · rw [(drawV_fold_dims _ _ _ _).1, (drawH_fold_dims _ _ _ _).1]
  · rw [(drawV_fold_dims _ _ _ _).2, (drawH_fold_dims _ _ _ _).2]

theorem drawRect_pix (im : Image) (rect : Rectangle) (px py : Nat) :
    (drawRect im rect).pix px py =
      if inBorder rect (px : Int) (py : Int) ∧ px < im.width ∧ py < im.height
      then paint (px : Int) (py : Int) (im.pix px py) else im.pix px py := by
  unfold drawRect
  rw [drawV_fold_pix, (drawH_fold_dims _ _ _ _).1, (drawH_fold_dims _ _ _ _).2,
    drawH_fold_pix]
  unfold inBorder
  simp only [mem_intRange]
  by_cases hbnd : px < im.width ∧ py < im.height
  · by_cases hB : (roundToI32 rect.top_left.2 + 1 ≤ (py : Int) ∧
        (py : Int) < roundToI32 rect.bottom_right.2) ∧
        ((px : Int) = roundToI32 rect.top_left.1 ∨
         (px : Int) = roundToI32 rect.bottom_right.1)
    · rw [if_pos ⟨hB.1, hB.2, hbnd⟩]
      by_cases hA : (roundToI32 rect.top_left.1 ≤ (px : Int) ∧
          (px : Int) < roundToI32 rect.bottom_right.1) ∧
          ((py : Int) = roundToI32 rect.top_left.2 ∨
           (py : Int) = roundToI32 rect.bottom_right.2)
      · rw [if_pos ⟨hA.1, hA.2, hbnd⟩, paint_paint,
          if_pos ⟨Or.inl ⟨hA.1.1, hA.1.2, hA.2⟩, hbnd⟩]
      · rw [if_neg ?_, if_pos ⟨Or.inr ⟨hB.1.1, hB.1.2, hB.2⟩, hbnd⟩]
        rintro ⟨hm, hrow, -⟩
        exact hA ⟨hm, hrow⟩
    · rw [if_neg ?_]
      swap
      · rintro ⟨hm, hcol, -⟩
        exact hB ⟨hm, hcol⟩
      by_cases hA : (roundToI32 rect.top_left.1 ≤ (px : Int) ∧
          (px : Int) < roundToI32 rect.bottom_right.1) ∧
          ((py : Int) = roundToI32 rect.top_left.2 ∨
           (py : Int) = roundToI32 rect.bottom_right.2)
      · rw [if_pos ⟨hA.1, hA.2, hbnd⟩,
          if_pos ⟨Or.inl ⟨hA.1.1, hA.1.2, hA.2⟩, hbnd⟩]
      · have hnA : ¬((roundToI32 rect.top_left.1 ≤ (px : Int) ∧
            (px : Int) < roundToI32 rect.bottom_right.1) ∧
            ((py : Int) = roundToI32 rect.top_left.2 ∨
             (py : Int) = roundToI32 rect.bottom_right.2) ∧
            px < im.width ∧ py < im.height) := by
          rintro ⟨hm, hrow, -⟩
          exact hA ⟨hm, hrow⟩
        have hnR : ¬(((roundToI32 rect.top_left.1 ≤ (px : Int) ∧
            (px : Int) < roundToI32 rect.bottom_right.1 ∧
            ((py : Int) = roundToI32 rect.top_left.2 ∨
             (py : Int) = roundToI32 rect.bottom_right.2)) ∨
            (roundToI32 rect.top_left.2 + 1 ≤ (py : Int) ∧
            (py : Int) < roundToI32 rect.bottom_right.2 ∧
            ((px : Int) = roundToI32 rect.top_left.1 ∨
             (px : Int) = roundToI32 rect.bottom_right.1))) ∧
            px < im.width ∧ py < im.height) := by
          rintro ⟨hbord, -⟩
          rcases hbord with ⟨h1, h2, h3⟩ | ⟨h1, h2, h3⟩
          · exact hA ⟨⟨h1, h2⟩, h3⟩
          · exact hB ⟨⟨h1, h2⟩, h3⟩
        rw [if_neg hnA, if_neg hnR]
  · rw [if_neg (fun hcon => hbnd hcon.2.2), if_neg (fun hcon => hbnd hcon.2.2),
      if_neg (fun hcon => hbnd hcon.2)]

theorem draw_fold_pix :
    ∀ (rects : List Rectangle) (image : Image) (px py : Nat),
      ((rects.foldl drawRect image).pix px py =
        if (∃ r ∈ rects, inBorder r (px : Int) (py : Int)) ∧
            px < image.width ∧ py < image.height
        then paint (px : Int) (py : Int) (image.pix px py) else image.pix px py) ∧
      (rects.foldl drawRect image).width = image.width ∧
      (rects.foldl drawRect image).height = image.height := by
  intro rects
  induction rects with
  | nil =>
    intro image px py
    refine ⟨?_, rfl, rfl⟩
    simp
  | cons r rects ih =>
    intro image px py
    simp only [List.foldl_cons]
    refine ⟨?_, ?_, ?_⟩
    · rw [(ih _ px py).1, (drawRect_dims image r).1, (drawRect_dims image r).2,
        drawRect_pix]
      by_cases hbnd : px < image.width ∧ py < image.height
      · by_cases hex : ∃ r' ∈ rects, inBorder r' (px : Int) (py : Int)
        · rw [if_pos ⟨hex, hbnd⟩]
          by_cases hr : inBorder r (px : Int) (py : Int)
          · rw [if_pos ⟨hr, hbnd⟩, paint_paint,
              if_pos ⟨⟨r, List.mem_cons_self _ _, hr⟩, hbnd⟩]
          · obtain ⟨r', hr's, hb'⟩ := hex
            rw [if_neg (fun hcon => hr hcon.1),
              if_pos ⟨⟨r', List.mem_cons_of_mem _ hr's, hb'⟩, hbnd⟩]
        · rw [if_neg (fun hcon => hex hcon.1)]
          by_cases hr : inBorder r (px : Int) (py : Int)
          · rw [if_pos ⟨hr, hbnd⟩,
              if_pos ⟨⟨r, List.mem_cons_self _ _, hr⟩, hbnd⟩]
          · rw [if_neg (fun hcon => hr hcon.1), if_neg ?_]
            rintro ⟨⟨r0, hr0, hb0⟩, -⟩
            rcases List.mem_cons.1 hr0 with rfl | hr0s
            · exact hr hb0
            · exact hex ⟨r0, hr0s, hb0⟩
      · rw [if_neg (fun hcon => hbnd hcon.2), if_neg (fun hcon => hbnd hcon.2),
          if_neg (fun hcon => hbnd hcon.2)]
    · rw [(ih _ px py).2.1, (drawRect_dims image r).1]
    · rw [(ih _ px py).2.2, (drawRect_dims image r).2]

/-- C8 counterexample: for a 5×5 image of pixels (7,7,7) with alpha 9
and a rectangle with rounded corners (0,0) and (2,2), the claim demands
that the top border row span the full rectangle width and that drawn
pixels be opaque, so pixel (2,0) (parity even) would be opaque red
(255,0,0,255); instead the horizontal pass stops before x = 2 and that
pixel is untouched, while the drawn pixel (0,0) keeps its alpha of 9 and
is not opaque. -/
theorem draw_not_full_width_not_opaque :
    (draw_ignored_rectangles img5x5 (some [rectC8])).pix 2 0 ≠ ⟨255, 0, 0, 255⟩ ∧
    (draw_ignored_rectangles img5x5 (some [rectC8])).pix 0 0 ≠ ⟨255, 0, 0, 255⟩ ∧
    (draw_ignored_rectangles img5x5 (some [rectC8])).pix 2 0 = ⟨7, 7, 7, 9⟩ ∧
    (draw_ignored_rectangles img5x5 (some [rectC8])).pix 0 0 = ⟨255, 0, 0, 9⟩ := by
  decide

/-- C8 (amended): draw_ignored_rectangles returns a new image in which,
for each rectangle with corners rounded to nearest integer, the border
consists of the top and bottom rows over x from round(tlx) up to but
excluding round(brx), and the left and right columns over y strictly
between round(tly) and round(bry) — so the rectangle's two right-hand
corner pixels are never drawn.  Every drawn border pixel has its RGB set
to (255,0,0) when (x+y) mod 2 = 0 and to (0,0,0) otherwise, with the
alpha channel left unchanged rather than forced opaque; coordinates
outside the image bounds are silently skipped, and all other pixels are
untouched. -/
theorem draw_ignored_rectangles_spec (image : Image) (rects : List Rectangle) :
    (draw_ignored_rectangles image (some rects)).width = image.width ∧
    (draw_ignored_rectangles image (some rects)).height = image.height ∧
    (∀ px py : Nat, px < image.width → py < image.height →
      (∃ r ∈ rects, inBorder r (px : Int) (py : Int)) →
      (draw_ignored_rectangles image (some rects)).pix px py =
        (if ((px : Int) + (py : Int)) % 2 = 0
         then ⟨255, 0, 0, (image.pix px py).a⟩
         else ⟨0, 0, 0, (image.pix px py).a⟩)) ∧
    (∀ px py : Nat, (∀ r ∈ rects, ¬ inBorder r (px : Int) (py : Int)) →
      (draw_ignored_rectangles image (some rects)).pix px py = image.pix px py) ∧
    (∀ px py : Nat, px ≥ image.width ∨ py ≥ image.height →
      (draw_ignored_rectangles image (some rects)).pix px py = image.pix px py) ∧
    (∀ px py : Nat,
      ((draw_ignored_rectangles image (some rects)).pix px py).a =
        (image.pix px py).a) := by
  have hfold := draw_fold_pix rects image
  have heq : draw_ignored_rectangles image (some rects) =
      rects.foldl drawRect image := rfl
  refine ⟨?_, ?_, ?_, ?_, ?_, ?_⟩
  · rw [heq, (hfold 0 0).2.1]
  · rw [heq, (hfold 0 0).2.2]
  · intro px py hx hy hex
    rw [heq, (hfold px py).1, if_pos ⟨hex, hx, hy⟩]
    unfold paint
    rfl
  · intro px py hout
    rw [heq, (hfold px py).1, if_neg ?_]
    rintro ⟨⟨r, hr, hb⟩, -⟩
    exact hout r hr hb
  · intro px py hob
    rw [heq, (hfold px py).1, if_neg ?_]
    rintro ⟨-, hx, hy⟩
    omega
  · intro px py
    rw [heq, (hfold px py).1]
    split
    · rw [paint_alpha]
    · rfl

/-- C8 witness: the amended statement applied to the 5×5 image and the
rectangle with rounded corners (0,0)-(2,2), evaluated at the drawn
corner (0,0) and at the untouched pixel (4,4). -/
theorem draw_ignored_rectangles_spec_witness :
    (draw_ignored_rectangles img5x5 (some [rectC8])).pix 0 0 =
      (if ((0 : Int) + (0 : Int)) % 2 = 0
       then ⟨255, 0, 0, (img5x5.pix 0 0).a⟩
       else ⟨0, 0, 0, (img5x5.pix 0 0).a⟩) ∧
    (draw_ignored_rectangles img5x5 (some [rectC8])).pix 4 4 = img5x5.pix 4 4 :=
  ⟨(draw_ignored_rectangles_spec img5x5 [rectC8]).2.2.1 0 0 (by decide) (by decide)
      ⟨rectC8, List.mem_cons_self _ _, by decide⟩,
   (draw_ignored_rectangles_spec img5x5 [rectC8]).2.2.2.1 4 4 (by decide)⟩

/-!
Lemmas about the composite assembly.
-/

theorem foldlM_eq_some_foldl {α β : Type} {f : β → α → Option β} {g : β → α → β}
    (hfg : ∀ b a, f b a = some (g b a)) :
    ∀ (l : List α) (b : β), l.foldlM f b = some (l.foldl g b) := by
  intro l
  induction l with
  | nil => intro b; rfl
  | cons a l ih =>
    intro b
    rw [List.foldlM_cons, hfg b a]
    simp only [Option.bind_eq_bind, Option.some_bind, List.foldl_cons]
    exact ih (g b a)

theorem Image_mk_width (w h : Nat) (f : Nat → Nat → Rgba) :
    (Image.mk w h f).width = w := rfl

theorem Image_mk_height (w h : Nat) (f : Nat → Nat → Rgba) :
    (Image.mk w h f).height = h := rfl

theorem replaceImg_width (dest src : Image) (ox oy : Int) :
    (replaceImg dest src ox oy).width = dest.width := rfl

theorem replaceImg_height (dest src : Image) (ox oy : Int) :
    (replaceImg dest src ox oy).height = dest.height := rfl

theorem col_foldlM_eq (a b : Image) :
    ∀ (ys : List Nat) (im : Image),
      im.width = a.width + b.width + 1 → im.height = a.height →
      (∀ y ∈ ys, y < a.height) →
      ys.foldlM (fun im y => putPixelChecked im a.width y ⟨0, 0, 0, 255⟩) im =
        some (ys.foldl (fun im y => setPix im a.width y ⟨0, 0, 0, 255⟩) im) := by
  intro ys
  induction ys with
  | nil => intro im _ _ _; rfl
  | cons y0 ys ih =>
    intro im hw hh hys
    have hy0 : y0 < a.height := hys y0 (List.mem_cons_self _ _)
    have hstep : putPixelChecked im a.width y0 ⟨0, 0, 0, 255⟩ =
        some (setPix im a.width y0 ⟨0, 0, 0, 255⟩) := by
      unfold putPixelChecked
      rw [if_pos ⟨by omega, by omega⟩]
    rw [List.foldlM_cons, hstep]
    simp only [Option.bind_eq_bind, Option.some_bind, List.foldl_cons]
    exact ih _ hw hh (fun y hy => hys y (List.mem_cons_of_mem _ hy))

theorem foldl_setPix_col_dims (w1 : Nat) (p : Rgba) :
    ∀ (ys : List Nat) (im : Image),
      ((ys.foldl (fun im y' => setPix im w1 y' p) im).width = im.width ∧
       (ys.foldl (fun im y' => setPix im w1 y' p) im).height = im.height) := by
  intro ys
  induction ys with
  | nil => intro im; exact ⟨rfl, rfl⟩
  | cons y0 ys ih =>
    intro im
    simp only [List.foldl_cons]
    exact ⟨(ih _).1, (ih _).2⟩

theorem foldl_setPix_col_pix (w1 : Nat) (p : Rgba) :
    ∀ (ys : List Nat) (im : Image) (x y : Nat),
      (ys.foldl (fun im y' => setPix im w1 y' p) im).pix x y =
        if x = w1 ∧ y ∈ ys then p else im.pix x y := by
  intro ys
  induction ys with
  | nil =>
    intro im x y
    simp
  | cons y0 ys ih =>
    intro im x y
    simp only [List.foldl_cons]
    rw [ih, setPix_pix]
    by_cases hx : x = w1
    · subst hx
      by_cases hm : y ∈ ys
      · rw [if_pos ⟨rfl, hm⟩, if_pos ⟨rfl, List.mem_cons_of_mem _ hm⟩]
      · rw [if_neg (fun hcon => hm hcon.2)]
        by_cases hy0 : y = y0
        · subst hy0
          rw [if_pos ⟨rfl, rfl⟩, if_pos ⟨rfl, List.mem_cons_self _ _⟩]
        · rw [if_neg (fun hcon => hy0 hcon.2), if_neg ?_]
          rintro ⟨-, hm2⟩
          rcases List.mem_cons.1 hm2 with h | h
          · exact hy0 h
          · exact hm h
    · rw [if_neg (fun hcon => hx hcon.1), if_neg (fun hcon => hx hcon.1),
        if_neg (fun hcon => hx hcon.1)]

theorem replaceImg_pix (dest src : Image) (ox oy : Int) (x y : Nat) :
    (replaceImg dest src ox oy).pix x y =
      if ox ≤ (x : Int) ∧ (x : Int) - ox < (src.width : Int) ∧
         oy ≤ (y : Int) ∧ (y : Int) - oy < (src.height : Int) ∧
         x < dest.width ∧ y < dest.height then
        src.pix ((x : Int) - ox).toNat ((y : Int) - oy).toNat
      else dest.pix x y := rfl

/-- The composite assembly always succeeds: the separator column is
written strictly inside the destination image. -/
theorem compose_eq (a b : Image) :
    compose a b = some (replaceImg
      ((List.range a.height).foldl
        (fun im y => setPix im a.width y ⟨0, 0, 0, 255⟩)
        (replaceImg
          (Image.mk (a.width + b.width + 1) a.height (fun _ _ => ⟨0, 0, 0, 0⟩))
          a 0 0))
      b ((a.width : Int) + 1) 0) := by
  have hfold := col_foldlM_eq a b (List.range a.height)
    (replaceImg
      (Image.mk (a.width + b.width + 1) a.height (fun _ _ => ⟨0, 0, 0, 0⟩))
      a 0 0)
    rfl rfl (fun y hy => List.mem_range.1 hy)
  simp only [compose]
  rw [hfold]

/-- C7: for input images of equal height, the composite has width
w1 + w2 + 1 and height h1, with image A at the origin, the full column
at x = w1 opaque black, and image B starting at x = w1 + 1. -/
theorem compose_spec (a b : Image) (hhb : b.height = a.height) :
    ∃ out, compose a b = some out ∧
      out.width = a.width + b.width + 1 ∧
      out.height = a.height ∧
      (∀ x y, x < a.width → y < a.height → out.pix x y = a.pix x y) ∧
      (∀ y, y < a.height → out.pix a.width y = ⟨0, 0, 0, 255⟩) ∧
      (∀ dx y, dx < b.width → y < a.height →
        out.pix (a.width + 1 + dx) y = b.pix dx y) := by
  have hmidw : ((List.range a.height).foldl
      (fun im y => setPix im a.width y ⟨0, 0, 0, 255⟩)
      (replaceImg
        (Image.mk (a.width + b.width + 1) a.height (fun _ _ => ⟨0, 0, 0, 0⟩))
        a 0 0)).width = a.width + b.width + 1 :=
    (foldl_setPix_col_dims _ _ _ _).1
  have hmidh : ((List.range a.height).foldl
      (fun im y => setPix im a.width y ⟨0, 0, 0, 255⟩)
      (replaceImg
        (Image.mk (a.width + b.width + 1) a.height (fun _ _ => ⟨0, 0, 0, 0⟩))
        a 0 0)).height = a.height :=
    (foldl_setPix_col_dims _ _ _ _).2
  refine ⟨_, compose_eq a b, ?_, ?_, ?_, ?_, ?_⟩
  · rw [replaceImg_width, hmidw]
  · rw [replaceImg_height, hmidh]
  · intro x y hx hy
    rw [replaceImg_pix, if_neg (by rintro ⟨h1, -⟩; omega),
      foldl_setPix_col_pix, if_neg (by rintro ⟨h1, -⟩; omega), replaceImg_pix,
      if_pos ⟨by omega, by omega, by omega, by omega,
        (show x < a.width + b.width + 1 by omega),
        (show y < a.height by omega)⟩]
    have h1 : ((x : Int) - 0).toNat = x := by omega
    have h2 : ((y : Int) - 0).toNat = y := by omega
    rw [h1, h2]
  · intro y hy
    rw [replaceImg_pix, if_neg (by rintro ⟨h1, -⟩; omega),
      foldl_setPix_col_pix, if_pos ⟨rfl, List.mem_range.2 hy⟩]
  · intro dx y hdx hy
    rw [replaceImg_pix,
      if_pos ⟨by omega, by omega, by omega, (by omega : (y : Int) - 0 < (b.height : Int)),
        (by rw [hmidw]; omega), (by rw [hmidh]; omega)⟩]
    have h1 : (((a.width + 1 + dx : Nat) : Int) - ((a.width : Int) + 1)).toNat
        = dx := by omega
    have h2 : ((y : Int) - 0).toNat = y := by omega
    rw [h1, h2]

/-- C7 witness at two concrete 1×1 images of equal height. -/
theorem compose_spec_witness :
    ∃ out, compose oneDark oneWhite = some out ∧
      out.width = oneDark.width + oneWhite.width + 1 ∧
      out.height = oneDark.height ∧
      (∀ x y, x < oneDark.width → y < oneDark.height →
        out.pix x y = oneDark.pix x y) ∧
      (∀ y, y < oneDark.height → out.pix oneDark.width y = ⟨0, 0, 0, 255⟩) ∧
      (∀ dx y, dx < oneWhite.width → y < oneDark.height →
        out.pix (oneDark.width + 1 + dx) y = oneWhite.pix dx y) :=
  compose_spec oneDark oneWhite rfl

/-!
C5: the page-selector filtering and corner conversion.
-/

/-- The page-selector semantics, element by element: "all" always
matches; "even" and "odd" match by parity of the parsed page number
(and silently fail to match when the page string does not parse); any
other selector matches only by literal string equality with the page
string, silently producing no match otherwise. -/
theorem pageSelectorMatches_iff (page : String) (rect : Rectangle) :
    pageSelectorMatches page rect = true ↔
      (rect.page = "all" ∨
       (rect.page = "even" ∧
         ∃ n, parseI32 page = some n ∧ Int.tmod n 2 = 0) ∨
       (rect.page = "odd" ∧
         ∃ n, parseI32 page = some n ∧ Int.tmod n 2 = 1) ∨
       (rect.page ≠ "all" ∧ rect.page ≠ "even" ∧ rect.page ≠ "odd" ∧
         page = rect.page)) := by
  unfold pageSelectorMatches
  by_cases hall : rect.page = "all"
  · simp [hall]
  · by_cases heven : rect.page = "even"
    · rw [if_neg hall, if_pos heven]
      cases hp : parseI32 page with
      | none => simp [hall, heven, hp]
      | some n => simp [hall, heven, hp]
    · by_cases hodd : rect.page = "odd"
      · rw [if_neg hall, if_neg heven, if_pos hodd]
        cases hp : parseI32 page with
        | none => simp [hall, heven, hodd, hp]
        | some n => simp [hall, heven, hodd, hp]
      · rw [if_neg hall, if_neg heven, if_neg hodd]
        simp [hall, heven, hodd]

/-- C5: get_matching_rectangles returns exactly the configured
rectangles whose page selector matches the page, in order, with both
corners of each converted by
pixel = round(inches * 72 * (2000 / pageHeightPoints)) — this is the
spec-side resolveForPage — and the concrete scenario: a rectangle tagged
"even" resolved for page "3" yields the empty list. -/
theorem get_matching_rectangles_spec :
    (∀ (config : Config) (page : String) (height_in_points : Int),
      config.get_matching_rectangles page height_in_points =
        resolveForPage config.ignored_rectangles page height_in_points) ∧
    (Config.mk [rectEven]).get_matching_rectangles "3" 792 = [] := by
  constructor
  · intro config page height_in_points
    unfold Config.get_matching_rectangles resolveForPage
    have hsel : (pageSelectorMatches page) = (fun rect : Rectangle =>
        if rect.page = "all" then true
        else if rect.page = "even" then
          match parseI32 page with
          | some n => decide (Int.tmod n 2 = 0)
          | none => false
        else if rect.page = "odd" then
          match parseI32 page with
          | some n => decide (Int.tmod n 2 = 1)
          | none => false
        else decide (page = rect.page)) := rfl
    rw [hsel]
    rfl
  · rfl

/-!
C9: totality of the core functions.  The checked variants route every
pixel access through the fallible accessors; they always succeed and
agree with the functions above, witnessing that the defensive guards
keep every access inside the image bounds.
-/

theorem highlightPixelStepChecked_eq (img : Image) (x y : Nat) :
    highlightPixelStepChecked img x y = some (highlightPixelStep img x y) := by
  unfold highlightPixelStepChecked highlightPixelStep
  by_cases hb : x < img.width ∧ y < img.height
  · rw [if_pos hb, if_pos hb]
    have hpix : getPixel img x y = some (img.pix x y) := by
      unfold getPixel
      rw [if_pos hb]
    simp only [hpix]
    unfold putPixelChecked
    rw [if_pos hb]
  · rw [if_neg hb, if_neg hb]

theorem highlightChunkChecked_eq (img : Image) (c : Nat × Nat) :
    highlightChunkChecked img c = some (highlightChunk img c) := by
  unfold highlightChunkChecked highlightChunk
  exact foldlM_eq_some_foldl
    (fun im od => highlightPixelStepChecked_eq im (c.1 + od.1) (c.2 + od.2))
    highlightOffsets img

theorem highlightChecked_eq (image : Image) (chunks : List (Nat × Nat)) :
    highlightChecked image chunks = some (highlight_chunks image chunks) := by
  unfold highlightChecked highlight_chunks
  exact foldlM_eq_some_foldl highlightChunkChecked_eq chunks image

theorem setIgnoredChecked_eq (image : Image) (x y : Int) :
    setIgnoredChecked image x y =
      some (set_ignored_pixel_border_color image x y) := by
  unfold setIgnoredChecked set_ignored_pixel_border_color
  by_cases hg : 0 ≤ x ∧ x < (image.width : Int) ∧ 0 ≤ y ∧ y < (image.height : Int)
  · rw [if_pos hg, if_pos hg]
    have hb : x.toNat < image.width ∧ y.toNat < image.height := by omega
    have hpix : getPixel image x.toNat y.toNat =
        some (image.pix x.toNat y.toNat) := by
      unfold getPixel
      rw [if_pos hb]
    simp only [hpix]
    by_cases hp : (x + y) % 2 = 0
    · rw [if_pos hp, if_pos hp]
      unfold putPixelChecked
      rw [if_pos hb]
    · rw [if_neg hp, if_neg hp]
      unfold putPixelChecked
      rw [if_pos hb]
  · rw [if_neg hg, if_neg hg]

theorem drawHstepChecked_eq (tly bry : Int) (im : Image) (x : Int) :
    (if 0 ≤ x ∧ x < (im.width : Int) then
       (setIgnoredChecked im x tly).bind
         (fun im1 => setIgnoredChecked im1 x bry)
     else some im) =
      some (if 0 ≤ x ∧ x < (im.width : Int) then
        set_ignored_pixel_border_color
          (set_ignored_pixel_border_color im x tly) x bry
      else im) := by
  by_cases hg : 0 ≤ x ∧ x < (im.width : Int)
  · rw [if_pos hg, if_pos hg, setIgnoredChecked_eq, Option.some_bind,
      setIgnoredChecked_eq]
  · rw [if_neg hg, if_neg hg]

theorem drawVstepChecked_eq (tlx brx : Int) (im : Image) (y : Int) :
    (if 0 ≤ y ∧ y < (im.height : Int) then
       (setIgnoredChecked im tlx y).bind
         (fun im1 => setIgnoredChecked im1 brx y)
     else some im) =
      some (if 0 ≤ y ∧ y < (im.height : Int) then
        set_ignored_pixel_border_color
          (set_ignored_pixel_border_color im tlx y) brx y
      else im) := by
  by_cases hg : 0 ≤ y ∧ y < (im.height : Int)
  · rw [if_pos hg, if_pos hg, setIgnoredChecked_eq, Option.some_bind,
      setIgnoredChecked_eq]
  · rw [if_neg hg, if_neg hg]

theorem drawRectChecked_eq (image : Image) (rect : Rectangle) :
    drawRectChecked image rect = some (drawRect image rect) := by
  simp only [drawRectChecked, drawRect]
  rw [foldlM_eq_some_foldl
      (drawHstepChecked_eq (roundToI32 rect.top_left.2)
        (roundToI32 rect.bottom_right.2))
      (intRange (roundToI32 rect.top_left.1) (roundToI32 rect.bottom_right.1))
      image,
    Option.some_bind,
    foldlM_eq_some_foldl
      (drawVstepChecked_eq (roundToI32 rect.top_left.1)
        (roundToI32 rect.bottom_right.1))
      (intRange (roundToI32 rect.top_left.2 + 1)
        (roundToI32 rect.bottom_right.2))]

theorem drawChecked_eq (image : Image) (rectsOpt : Option (List Rectangle)) :
    drawChecked image rectsOpt =
      some (draw_ignored_rectangles image rectsOpt) := by
  cases rectsOpt with
  | none => rfl
  | some rects =>
    unfold drawChecked draw_ignored_rectangles
    exact foldlM_eq_some_foldl drawRectChecked_eq rects image

/-- C9: over equal-dimension inputs the core functions are total: the
chunk comparison performs every pixel access in bounds and returns a
result, and the checked variants of highlight_chunks and
draw_ignored_rectangles — in which every pixel access fails if out of
bounds — always succeed and agree with the functions themselves, for
any ignore rectangles and chunk lists. -/
theorem core_functions_total :
    (∀ (img1 img2 : Image) (rectsOpt : Option (List Rectangle)),
      img1.width = img2.width → img1.height = img2.height →
      (compare_images_in_chunks img1 img2 rectsOpt).isSome = true) ∧
    (∀ (image : Image) (chunks : List (Nat × Nat)),
      highlightChecked image chunks = some (highlight_chunks image chunks)) ∧
    (∀ (image : Image) (rectsOpt : Option (List Rectangle)),
      drawChecked image rectsOpt = some (draw_ignored_rectangles image rectsOpt)) := by
  refine ⟨?_, highlightChecked_eq, drawChecked_eq⟩
  intro img1 img2 rectsOpt hw hh
  rw [compare_eq_filter img1 img2 rectsOpt hw.le hh.le]
  rfl

/-- C9 witness at concrete inputs. -/
theorem core_functions_total_witness :
    (compare_images_in_chunks imgA20 imgB20 none).isSome = true ∧
    highlightChecked oneDark [(0, 0)] = some (highlight_chunks oneDark [(0, 0)]) ∧
    drawChecked img5x5 (some [rectC8]) =
      some (draw_ignored_rectangles img5x5 (some [rectC8])) :=
  ⟨core_functions_total.1 imgA20 imgB20 none rfl rfl,
   core_functions_total.2.1 oneDark [(0, 0)],
   core_functions_total.2.2 img5x5 (some [rectC8])⟩

end MatchPdf
